import Mathlib

/-!
# file_scanner: inode-keyed file inventory and its reconciliation with a store

Shallow embedding of `src/file_scanner.go` and `src/main.go`.

* `uint64` inodes are `Nat`; `int64` sizes and the hash size limit are `Int`
  (no arithmetic is done on them, only comparisons).
* `time.Time` is the instant in nanoseconds since the Unix epoch (`Int`);
  `t.After(u)` is `t > u`.
* A Go `map[uint64]*FileInfo` is an association list; the order of the list
  is the order in which `range` visits the map, which Go leaves unspecified,
  so a statement quantified over all lists covers every iteration order.
* Go errors are strings; a `nil` error is `none`.
* The gorm store is the list of rows of table `file_infos` together with the
  log of `Delete` / `Updates` / `Create` calls issued on it.  Whether a call
  fails is decided by an arbitrary oracle that sees the rows and the call.
-/

namespace FileScan

/-- Go `error` values. -/
abbrev Error := String

/-- The struct `FileInfo` of `file_scanner.go`. -/
structure FileInfo where
  Inode : Nat
  Name : String
  Path : String
  Size : Int
  ModTime : Int
  Hash : String
deriving DecidableEq, Repr

/-- A Go `map[uint64]*FileInfo`, in iteration order. -/
abbrev FileInfoMap := List (Nat × FileInfo)

/-- The lookup `v, ok := m[k]`. -/
def mapGet : FileInfoMap → Nat → Option FileInfo
  | [], _ => none
  | (k', v) :: rest, k => if k' = k then some v else mapGet rest k

/-- The assignment `m[k] = v`. -/
def mapSet : FileInfoMap → Nat → FileInfo → FileInfoMap
  | [], k, v => [(k, v)]
  | (k', v') :: rest, k, v =>
    if k' = k then (k, v) :: rest else (k', v') :: mapSet rest k v

/-- A call on the gorm transaction handle: `tx.Delete(list)`,
`tx.Model(v).Updates(v)`, `tx.Create(v)`. -/
inductive StoreOp where
  | Delete (value : List FileInfo)
  | Updates (value : FileInfo)
  | Create (value : FileInfo)
deriving DecidableEq, Repr

/-- The gorm handle: the rows of table `file_infos` and the calls issued so far. -/
structure DB where
  rows : List FileInfo
  calls : List StoreOp
deriving DecidableEq, Repr

/-- The struct `FileScanner` of `file_scanner.go`. -/
structure FileScanner where
  Root : String
  DB : DB
  dbFileInfoMap : FileInfoMap
  currFileInfoMap : FileInfoMap
deriving DecidableEq, Repr

/-- The row found by primary key `inode`. -/
def findRow : List FileInfo → Nat → Option FileInfo
  | [], _ => none
  | r :: rest, inode => if r.Inode = inode then some r else findRow rest inode

/-- What gorm's `Updates` with a struct value writes into a row: only the
fields of the value that are not the zero value of their type are assigned
(`""` for strings, `0` for integers); the primary key selects the row and is
not assigned.  `ModTime` comes from `time.Unix`, which carries a location and
is never the zero `time.Time`, so it is always assigned. -/
def updatesRow (row value : FileInfo) : FileInfo :=
  { Inode := row.Inode
    Name := if value.Name = "" then row.Name else value.Name
    Path := if value.Path = "" then row.Path else value.Path
    Size := if value.Size = 0 then row.Size else value.Size
    ModTime := value.ModTime
    Hash := if value.Hash = "" then row.Hash else value.Hash }

/-- The effect of a store call that does not fail on the rows of the table. -/
def applyOp (rows : List FileInfo) : StoreOp → List FileInfo
  | .Delete value => rows.filter (fun r => decide (r.Inode ∉ value.map FileInfo.Inode))
  | .Updates value =>
    rows.map (fun r => if r.Inode = value.Inode then updatesRow r value else r)
  | .Create value => rows ++ [value]

/-- The failure oracle of the store: the error with which a call fails on the
given rows, `none` when it goes through. -/
abbrev Fault := List FileInfo → StoreOp → Option Error

/-- One call on the transaction handle: it is logged, then fails or takes effect. -/
def DB.call (fault : Fault) (tx : DB) (op : StoreOp) : DB × Option Error :=
  match fault tx.rows op with
  | some err => ({ tx with calls := tx.calls ++ [op] }, some err)
  | none => ({ rows := applyOp tx.rows op, calls := tx.calls ++ [op] }, none)

/-- State of one run of the transaction body of `UpdateDBWithHashSizeLimit`. -/
structure Run where
  tx : DB
  curr : FileInfoMap
  hashed : List FileInfo
deriving DecidableEq, Repr

/-- The first loop: the records of `dbFileInfoMap` whose inode is not a key of
`currFileInfoMap`. -/
def needDeleteFileInfoList (dbFileInfoMap currFileInfoMap : FileInfoMap) : List FileInfo :=
  (dbFileInfoMap.filter (fun p => (mapGet currFileInfoMap p.1).isNone)).map Prod.snd

/-- The statement `if size <= hashSizeLimit { hash, _ := GetFileHash(path); fileInfo.Hash = hash }`:
the record afterwards, written back through the pointer held by `currFileInfoMap`,
and the hasher invocation logged. -/
def hashIfSmall (GetFileHash : String → String × Option Error) (hashSizeLimit : Int)
    (st : Run) (inode : Nat) (fileInfo : FileInfo) : FileInfo × Run :=
  if fileInfo.Size ≤ hashSizeLimit then
    let hash := (GetFileHash fileInfo.Path).1
    let fileInfo' := { fileInfo with Hash := hash }
    (fileInfo', { st with curr := mapSet st.curr inode fileInfo', hashed := st.hashed ++ [fileInfo] })
  else (fileInfo, st)

/-- The body of the second loop for one entry of `currFileInfoMap`. -/
def visit (GetFileHash : String → String × Option Error) (fault : Fault)
    (dbFileInfoMap : FileInfoMap) (hashSizeLimit : Int)
    (st : Run) (inode : Nat) (fileInfo : FileInfo) : Run × Option Error :=
  match mapGet dbFileInfoMap inode with
  | some dbFileInfo =>
    if fileInfo.ModTime > dbFileInfo.ModTime then
      let (fileInfo', st) := hashIfSmall GetFileHash hashSizeLimit st inode fileInfo
      let (tx, err) := st.tx.call fault (.Updates fileInfo')
      ({ st with tx := tx }, err)
    else (st, none)
  | none =>
    let (fileInfo', st) := hashIfSmall GetFileHash hashSizeLimit st inode fileInfo
    let (tx, err) := st.tx.call fault (.Create fileInfo')
    ({ st with tx := tx }, err)

/-- The second loop, `for inode, fileInfo := range s.currFileInfoMap`, leaving
at the first error. -/
def rangeCurr (GetFileHash : String → String × Option Error) (fault : Fault)
    (dbFileInfoMap : FileInfoMap) (hashSizeLimit : Int) :
    FileInfoMap → Run → Run × Option Error
  | [], st => (st, none)
  | (inode, fileInfo) :: rest, st =>
    match visit GetFileHash fault dbFileInfoMap hashSizeLimit st inode fileInfo with
    | (st', some err) => (st', some err)
    | (st', none) => rangeCurr GetFileHash fault dbFileInfoMap hashSizeLimit rest st'

/-- The function passed to `s.DB.Transaction`. -/
def transactionBody (GetFileHash : String → String × Option Error) (fault : Fault)
    (s : FileScanner) (hashSizeLimit : Int) (tx : DB) : Run × Option Error :=
  let st : Run := { tx := tx, curr := s.currFileInfoMap, hashed := [] }
  let needDelete := needDeleteFileInfoList s.dbFileInfoMap s.currFileInfoMap
  if needDelete.length > 0 then
    match st.tx.call fault (.Delete needDelete) with
    | (tx, some err) => ({ st with tx := tx }, some err)
    | (tx, none) =>
      rangeCurr GetFileHash fault s.dbFileInfoMap hashSizeLimit s.currFileInfoMap { st with tx := tx }
  else
    rangeCurr GetFileHash fault s.dbFileInfoMap hashSizeLimit s.currFileInfoMap st

/-- The gorm method `DB.Transaction(fc)`: the effects of `fc` on the rows are kept
when it returns nil and undone when it returns an error, which is returned.
Beginning and committing the transaction are taken to succeed. -/
def Transaction (db : DB) (fc : DB → Run × Option Error) : Run × Option Error :=
  match fc db with
  | (st, none) => (st, none)
  | (st, some err) => ({ st with tx := { st.tx with rows := db.rows } }, some err)

/-- What a run of `UpdateDBWithHashSizeLimit` leaves behind. -/
structure Outcome where
  scanner : FileScanner
  hashed : List FileInfo
  err : Option Error
deriving DecidableEq, Repr

/-- The method `UpdateDBWithHashSizeLimit`. -/
def UpdateDBWithHashSizeLimit (GetFileHash : String → String × Option Error) (fault : Fault)
    (s : FileScanner) (hashSizeLimit : Int) : Outcome :=
  match Transaction s.DB (transactionBody GetFileHash fault s hashSizeLimit) with
  | (st, err) =>
    { scanner := { s with DB := st.tx, currFileInfoMap := st.curr }
      hashed := st.hashed
      err := err }

/-- The method `UpdateDB`. -/
def UpdateDB (GetFileHash : String → String × Option Error) (fault : Fault)
    (s : FileScanner) : Outcome :=
  UpdateDBWithHashSizeLimit GetFileHash fault s (10 * 1024 * 1024)

/-- The outcomes of the gorm calls made while a scanner is set up. -/
structure Startup where
  openError : Option Error
  dropError : Option Error
  migrateError : Option Error
  findError : Option Error
deriving DecidableEq, Repr

/-- The method `loadFileInfoFromDB`. -/
def loadFileInfoFromDB (env : Startup) (s : FileScanner) : FileScanner × Option Error :=
  match env.findError with
  | some err => (s, some err)
  | none =>
    ({ s with dbFileInfoMap :=
        s.DB.rows.foldl (fun m fileInfo => mapSet m fileInfo.Inode fileInfo) s.dbFileInfoMap },
      none)

/-- The function `NewFileScanner`; `table` is the content of table `file_infos`
in the database file when it is opened.  The results of `db.Exec`,
`db.AutoMigrate` and `loadFileInfoFromDB` are not looked at. -/
def NewFileScanner (env : Startup) (table : List FileInfo) (root database : String)
    (initData showSql : Bool) : Option FileScanner × Option Error :=
  match env.openError with
  | some err => (none, some err)
  | none =>
    let rows := if initData && env.dropError.isNone then [] else table
    let fileScanner : FileScanner :=
      { Root := root
        DB := { rows := rows, calls := [] }
        dbFileInfoMap := []
        currFileInfoMap := [] }
    let (fileScanner, _) := loadFileInfoFromDB env fileScanner
    (some fileScanner, none)

/-- What `walkDir` reads of an `os.DirEntry`. -/
structure DirEntry where
  Name : String
  IsRegular : Bool
deriving DecidableEq, Repr

/-- The fields of `syscall.Stat_t` that are read; `Mtim` as the pair
`(sec, nsec)` returned by `stat.Mtim.Unix()`. -/
structure Stat_t where
  Ino : Nat
  Size : Int
  Mtim : Int × Int
deriving DecidableEq, Repr

/-- The instant `time.Unix(sec, nsec)`. -/
def timeUnix (t : Int × Int) : Int := t.1 * 1000000000 + t.2

/-- The callback `walkDir`; `Stat` is the system call `syscall.Stat`. -/
def walkDir (Stat : String → Except Error Stat_t) (s : FileScanner)
    (path : String) (entry : DirEntry) (err : Option Error) : FileScanner × Option Error :=
  match err with
  | some e => (s, some e)
  | none =>
    if entry.IsRegular then
      match Stat path with
      | .error e => (s, some e)
      | .ok stat =>
        let fileInfo : FileInfo :=
          { Inode := stat.Ino
            Name := entry.Name
            Path := path
            Size := stat.Size
            ModTime := timeUnix stat.Mtim
            Hash := "" }
        ({ s with currFileInfoMap := mapSet s.currFileInfoMap fileInfo.Inode fileInfo }, none)
    else (s, none)

/-- One call that `filepath.WalkDir` makes to its callback. -/
structure Visit where
  path : String
  entry : DirEntry
  err : Option Error
deriving DecidableEq, Repr

/-- The walker `filepath.WalkDir` over its sequence of visits: it stops at the first
error the callback returns and returns it. -/
def walkVisits (Stat : String → Except Error Stat_t) :
    FileScanner → List Visit → FileScanner × Option Error
  | s, [] => (s, none)
  | s, v :: rest =>
    match walkDir Stat s v.path v.entry v.err with
    | (s', some e) => (s', some e)
    | (s', none) => walkVisits Stat s' rest

/-- The method `Scan`; `WalkDir root` is the sequence of visits of the tree at `root`. -/
def Scan (WalkDir : String → List Visit) (Stat : String → Except Error Stat_t)
    (s : FileScanner) : FileScanner × Option Error :=
  walkVisits Stat s (WalkDir s.Root)

/-- The call `flag.Arg(0)`: the first positional argument, `""` when there is none. -/
def flagArg0 (args : List String) : String := args.headD ""

/-- The local `root` of `main`: the first positional argument, `"."` when it is empty. -/
def mainRoot (args : List String) : String :=
  let root := flagArg0 args
  if root.length = 0 then "." else root

/-- The part of `main` up to the construction of the scanner: `args` are the
positional arguments left by `flag.Parse`; `database`, `initData` and `showSql`
the values of the three flags.  The local `root` is computed and is not passed on. -/
def mainScanner (env : Startup) (table : List FileInfo) (args : List String)
    (database : String) (initData showSql : Bool) : Option FileScanner × Option Error :=
  let _ := mainRoot args
  NewFileScanner env table "." database initData showSql

/-! ## Observers used to state the properties -/

/-- The keys of a map are pairwise distinct (what a Go map guarantees). -/
def DistinctKeys (m : FileInfoMap) : Prop := (m.map Prod.fst).Nodup

instance (m : FileInfoMap) : Decidable (DistinctKeys m) := by
  unfold DistinctKeys; infer_instance

/-- Every record is stored under its own inode, as `loadFileInfoFromDB` and
`walkDir` insert them. -/
def KeyedByInode (m : FileInfoMap) : Prop := ∀ p ∈ m, p.2.Inode = p.1

instance (m : FileInfoMap) : Decidable (KeyedByInode m) := by
  unfold KeyedByInode; infer_instance

/-- The batches passed to the `Delete` calls of a log, in order. -/
def deleteBatches : List StoreOp → List (List FileInfo)
  | [] => []
  | .Delete value :: ops => value :: deleteBatches ops
  | _ :: ops => deleteBatches ops

/-- The records passed to the `Updates` calls of a log, in order. -/
def updatesOf : List StoreOp → List FileInfo
  | [] => []
  | .Updates value :: ops => value :: updatesOf ops
  | _ :: ops => updatesOf ops

/-- The records passed to the `Create` calls of a log, in order. -/
def createsOf : List StoreOp → List FileInfo
  | [] => []
  | .Create value :: ops => value :: createsOf ops
  | _ :: ops => createsOf ops

/-- The store calls issued by a run that started from scanner `s`. -/
def issued (s : FileScanner) (out : Outcome) : List StoreOp :=
  out.scanner.DB.calls.drop s.DB.calls.length

/-- The outcome of the `k`-th call of a sequence of calls made from `rows`:
the error the store answers it with once the calls before it have taken
effect, `none` when it goes through or there is no such call. -/
def faultAt (fault : Fault) (rows : List FileInfo) (ops : List StoreOp) (k : Nat) :
    Option Error :=
  match ops.get? k with
  | none => none
  | some op => fault ((ops.take k).foldl applyOp rows) op

/-- The hasher returns a non-empty digest exactly when it returns no error. -/
def HasherContract (GetFileHash : String → String × Option Error) : Prop :=
  ∀ path, (GetFileHash path).2 = none ↔ (GetFileHash path).1 ≠ ""

/-- The record a create or update is issued with: the hash field assigned from
the hasher when the size is within the limit. -/
def stamped (GetFileHash : String → String × Option Error) (hashSizeLimit : Int)
    (fileInfo : FileInfo) : FileInfo :=
  if fileInfo.Size ≤ hashSizeLimit then
    { fileInfo with Hash := (GetFileHash fileInfo.Path).1 }
  else fileInfo

/-- The store call the second loop makes for one entry, if any. -/
def opFor (GetFileHash : String → String × Option Error) (dbFileInfoMap : FileInfoMap)
    (hashSizeLimit : Int) (p : Nat × FileInfo) : Option StoreOp :=
  match mapGet dbFileInfoMap p.1 with
  | some dbFileInfo =>
    if p.2.ModTime > dbFileInfo.ModTime then
      some (.Updates (stamped GetFileHash hashSizeLimit p.2))
    else none
  | none => some (.Create (stamped GetFileHash hashSizeLimit p.2))

/-- Whether the second loop invokes the hasher for an entry. -/
def hashedFor (dbFileInfoMap : FileInfoMap) (hashSizeLimit : Int) (p : Nat × FileInfo) : Bool :=
  (match mapGet dbFileInfoMap p.1 with
   | some dbFileInfo => decide (p.2.ModTime > dbFileInfo.ModTime)
   | none => true) && decide (p.2.Size ≤ hashSizeLimit)

/-- The calls of a run in which none fails. -/
def plannedOps (GetFileHash : String → String × Option Error) (s : FileScanner)
    (hashSizeLimit : Int) : List StoreOp :=
  (if (needDeleteFileInfoList s.dbFileInfoMap s.currFileInfoMap).length > 0 then
      [StoreOp.Delete (needDeleteFileInfoList s.dbFileInfoMap s.currFileInfoMap)]
    else []) ++
  s.currFileInfoMap.filterMap (opFor GetFileHash s.dbFileInfoMap hashSizeLimit)

/-- A sequence of calls made one after the other, stopping at the first failure. -/
def replay (fault : Fault) : DB → List StoreOp → DB × Option Error
  | tx, [] => (tx, none)
  | tx, op :: ops =>
    match tx.call fault op with
    | (tx', some err) => (tx', some err)
    | (tx', none) => replay fault tx' ops

/-- The last visited regular file with the given inode among `visits` (listed latest first). -/
def lastRegular (Stat : String → Except Error Stat_t) (inode : Nat) :
    List Visit → Option FileInfo
  | [] => none
  | v :: earlier =>
    match Stat v.path with
    | .ok stat =>
      if v.entry.IsRegular ∧ stat.Ino = inode then
        some
          { Inode := stat.Ino
            Name := v.entry.Name
            Path := v.path
            Size := stat.Size
            ModTime := timeUnix stat.Mtim
            Hash := "" }
      else lastRegular Stat inode earlier
    | .error _ => lastRegular Stat inode earlier

/-- The row with primary key `inode` after a store call, from the row before it. -/
def rowAfter (op : StoreOp) (inode : Nat) (row : Option FileInfo) : Option FileInfo :=
  match op with
  | .Delete value => if inode ∈ value.map FileInfo.Inode then none else row
  | .Updates value =>
    row.map (fun r => if r.Inode = value.Inode then updatesRow r value else r)
  | .Create value =>
    match row with
    | some r => some r
    | none => if value.Inode = inode then some value else none

/-- The records `walkDir` inserts: distinct keys, each record under its own inode,
with an empty hash. -/
def Observed (m : FileInfoMap) : Prop :=
  DistinctKeys m ∧ KeyedByInode m ∧ ∀ p ∈ m, p.2.Hash = ""

/-! ## Concrete runs -/

/-- A hasher that fails on one path and returns a digest on every other. -/
def exHasher : String → String × Option Error :=
  fun path => if path = "/t/locked" then ("", some "permission denied") else ("d41d8cd9", none)

/-- A store on which no call fails. -/
def noFault : Fault := fun _ _ => none

/-- A store on which every `Create` fails. -/
def failCreate : Fault := fun _ op =>
  match op with
  | .Create _ => some "disk full"
  | _ => none

/-- The default limit of `UpdateDB`, 10 MiB. -/
def exLimit : Int := 10 * 1024 * 1024

def exPrior1 : FileInfo :=
  { Inode := 1, Name := "a.txt", Path := "/t/a.txt", Size := 100, ModTime := 1000, Hash := "abc" }

def exPrior2 : FileInfo :=
  { Inode := 2, Name := "b.txt", Path := "/t/b.txt", Size := 7, ModTime := 1000, Hash := "bbb" }

def exPrior5 : FileInfo :=
  { Inode := 5, Name := "gone", Path := "/t/gone", Size := 3, ModTime := 900, Hash := "ccc" }

/-- Inode 1 with a later modification time. -/
def exCur1 : FileInfo :=
  { Inode := 1, Name := "a.txt", Path := "/t/a.txt", Size := 150, ModTime := 2000, Hash := "" }

/-- Inode 2 renamed, modification time unchanged. -/
def exCur2 : FileInfo :=
  { Inode := 2, Name := "renamed", Path := "/t/renamed", Size := 7, ModTime := 1000, Hash := "" }

/-- A new file of exactly the limit size. -/
def exCur7 : FileInfo :=
  { Inode := 7, Name := "new", Path := "/t/new", Size := 10 * 1024 * 1024, ModTime := 1500,
    Hash := "" }

/-- A new file of 20 MiB. -/
def exCur9 : FileInfo :=
  { Inode := 9, Name := "big", Path := "/t/big", Size := 20 * 1024 * 1024, ModTime := 1500,
    Hash := "" }

/-- A scanner after `NewFileScanner` and `Scan`: inode 5 was removed, inode 1 changed,
inode 2 was renamed, inodes 7 and 9 are new. -/
def exScanner : FileScanner :=
  { Root := "."
    DB := { rows := [exPrior1, exPrior2, exPrior5], calls := [] }
    dbFileInfoMap := [(1, exPrior1), (2, exPrior2), (5, exPrior5)]
    currFileInfoMap := [(1, exCur1), (2, exCur2), (9, exCur9), (7, exCur7)] }

/-- Startup in which every store call succeeds. -/
def exStartup : Startup :=
  { openError := none, dropError := none, migrateError := none, findError := none }

/-- The scanner of a second run: the prior mapping is loaded from the store the first
run left, the current mapping is the same snapshot. -/
def exScanner2 : FileScanner :=
  { Root := "."
    DB := (UpdateDBWithHashSizeLimit exHasher noFault exScanner exLimit).scanner.DB
    dbFileInfoMap :=
      (loadFileInfoFromDB exStartup
        { Root := "."
          DB := (UpdateDBWithHashSizeLimit exHasher noFault exScanner exLimit).scanner.DB
          dbFileInfoMap := []
          currFileInfoMap := [] }).1.dbFileInfoMap
    currFileInfoMap := [(1, exCur1), (2, exCur2), (9, exCur9), (7, exCur7)] }

/-- A scanner over an empty store that observed two new small files. -/
def exFresh : FileScanner :=
  { Root := "."
    DB := { rows := [], calls := [] }
    dbFileInfoMap := []
    currFileInfoMap := [(1, exCur1), (7, exCur7)] }

/-- Inode 1 grown to 20 MiB with a later modification time. -/
def exCur1Big : FileInfo :=
  { Inode := 1, Name := "a.txt", Path := "/t/a.txt", Size := 20 * 1024 * 1024, ModTime := 2000,
    Hash := "" }

/-- Inode 1 truncated to zero bytes with a later modification time. -/
def exCur1Empty : FileInfo :=
  { Inode := 1, Name := "a.txt", Path := "/t/a.txt", Size := 0, ModTime := 2000, Hash := "" }

/-- A scanner whose store holds inode 1 and that observed `current` for it. -/
def exChanged (current : FileInfo) : FileScanner :=
  { Root := "."
    DB := { rows := [exPrior1], calls := [] }
    dbFileInfoMap := [(1, exPrior1)]
    currFileInfoMap := [(1, current)] }

/-- A scanner whose prior mapping is empty although the store holds the row of inode 5,
as `NewFileScanner` leaves it when the initial query fails; it observed the new inode 7. -/
def exStale : FileScanner :=
  { Root := "."
    DB := { rows := [exPrior5], calls := [] }
    dbFileInfoMap := []
    currFileInfoMap := [(7, exCur7)] }

/-- The scanner of the run after `exStale`: the prior mapping is loaded from the store
that run left, the current mapping is the same snapshot. -/
def exStale2 : FileScanner :=
  { Root := "."
    DB := (UpdateDBWithHashSizeLimit exHasher noFault exStale exLimit).scanner.DB
    dbFileInfoMap :=
      (loadFileInfoFromDB exStartup
        { Root := "."
          DB := (UpdateDBWithHashSizeLimit exHasher noFault exStale exLimit).scanner.DB
          dbFileInfoMap := []
          currFileInfoMap := [] }).1.dbFileInfoMap
    currFileInfoMap := [(7, exCur7)] }

/-- Startup in which the database opens and every later store call fails. -/
def exStartupFailing : Startup :=
  { openError := none
    dropError := some "drop failed"
    migrateError := some "migrate failed"
    findError := some "query failed" }

/-- The scanner `NewFileScanner` returns over an empty table. -/
def exNew : FileScanner :=
  { Root := "."
    DB := { rows := [], calls := [] }
    dbFileInfoMap := []
    currFileInfoMap := [] }

/-- A walk over a directory, a file with a second hard link, and a symlink. -/
def exVisits : List Visit :=
  [ { path := "/t", entry := { Name := "t", IsRegular := false }, err := none },
    { path := "/t/a.txt", entry := { Name := "a.txt", IsRegular := true }, err := none },
    { path := "/t/link", entry := { Name := "link", IsRegular := false }, err := none },
    { path := "/t/hard", entry := { Name := "hard", IsRegular := true }, err := none } ]

/-- The answers of `syscall.Stat` in that walk: both regular paths are inode 1. -/
def exStat : String → Except Error Stat_t :=
  fun path =>
    if path = "/t/a.txt" ∨ path = "/t/hard" then
      .ok { Ino := 1, Size := 150, Mtim := (0, 2000) }
    else .error "no such file"

/-! ## Maps -/

theorem mapGet_mapSet (m : FileInfoMap) (k k' : Nat) (v : FileInfo) :
    mapGet (mapSet m k v) k' = if k = k' then some v else mapGet m k' := by
  induction m with
  | nil => simp [mapSet, mapGet]
  | cons hd tl ih =>
    obtain ⟨a, b⟩ := hd
    by_cases h : a = k
    · subst h
      by_cases h' : a = k' <;> simp [mapSet, mapGet, h']
    · by_cases h' : a = k'
      · subst h'
        have : ¬ k = a := fun e => h e.symm
        simp [mapSet, mapGet, h, this]
      · simp [mapSet, mapGet, h, h', ih]

theorem mapGet_eq_none_iff (m : FileInfoMap) (k : Nat) :
    mapGet m k = none ↔ k ∉ m.map Prod.fst := by
  induction m with
  | nil => simp [mapGet]
  | cons hd tl ih =>
    obtain ⟨a, b⟩ := hd
    by_cases h : a = k
    · simp [mapGet, h]
    · have : ¬ k = a := fun e => h e.symm
      simp [mapGet, h, ih, this]

theorem mapGet_of_mem (m : FileInfoMap) (hm : DistinctKeys m) (k : Nat) (v : FileInfo)
    (h : (k, v) ∈ m) : mapGet m k = some v := by
  induction m with
  | nil => simp at h
  | cons hd tl ih =>
    obtain ⟨a, b⟩ := hd
    simp only [DistinctKeys, List.map_cons, List.nodup_cons] at hm
    rcases List.mem_cons.mp h with h | h
    · cases h; simp [mapGet]
    · have hk : k ∈ tl.map Prod.fst := List.mem_map.mpr ⟨(k, v), h, rfl⟩
      have : a ≠ k := fun e => hm.1 (e ▸ hk)
      simp [mapGet, this, ih hm.2 h]

theorem mem_of_mapGet (m : FileInfoMap) (k : Nat) (v : FileInfo)
    (h : mapGet m k = some v) : (k, v) ∈ m := by
  induction m with
  | nil => simp [mapGet] at h
  | cons hd tl ih =>
    obtain ⟨a, b⟩ := hd
    by_cases e : a = k
    · subst e
      simp [mapGet] at h
      simp [h]
    · simp [mapGet, e] at h
      exact List.mem_cons_of_mem _ (ih h)

theorem filter_key_of_mapGet (m : FileInfoMap) (hm : DistinctKeys m) (k : Nat) (v : FileInfo)
    (h : mapGet m k = some v) : m.filter (fun p => decide (p.1 = k)) = [(k, v)] := by
  induction m with
  | nil => simp [mapGet] at h
  | cons hd tl ih =>
    obtain ⟨a, b⟩ := hd
    simp only [DistinctKeys, List.map_cons, List.nodup_cons] at hm
    by_cases e : a = k
    · subst e
      simp [mapGet] at h
      subst h
      have : tl.filter (fun p => decide (p.1 = a)) = [] := by
        apply List.filter_eq_nil_iff.mpr
        intro p hp
        have : p.1 ≠ a := fun e => hm.1 (e ▸ List.mem_map.mpr ⟨p, hp, rfl⟩)
        simp [this]
      simp [List.filter_cons, this]
    · simp [mapGet, e] at h
      simp [List.filter_cons, e, ih hm.2 h]

theorem filter_key_of_mapGet_none (m : FileInfoMap) (k : Nat)
    (h : mapGet m k = none) : m.filter (fun p => decide (p.1 = k)) = [] := by
  apply List.filter_eq_nil_iff.mpr
  intro p hp
  have hk := (mapGet_eq_none_iff m k).mp h
  have : p.1 ≠ k := fun e => hk (e ▸ List.mem_map.mpr ⟨p, hp, rfl⟩)
  simp [this]


/-! ## The run as a replay of its planned calls -/

theorem hashIfSmall_fst (G : String → String × Option Error) (lim : Int) (st : Run)
    (inode : Nat) (fi : FileInfo) :
    (hashIfSmall G lim st inode fi).1 = stamped G lim fi := by
  unfold hashIfSmall stamped
  split <;> rfl

theorem hashIfSmall_tx (G : String → String × Option Error) (lim : Int) (st : Run)
    (inode : Nat) (fi : FileInfo) :
    (hashIfSmall G lim st inode fi).2.tx = st.tx := by
  unfold hashIfSmall
  split <;> rfl

theorem hashIfSmall_hashed (G : String → String × Option Error) (lim : Int) (st : Run)
    (inode : Nat) (fi : FileInfo) :
    (hashIfSmall G lim st inode fi).2.hashed
      = st.hashed ++ (if fi.Size ≤ lim then [fi] else []) := by
  unfold hashIfSmall
  split <;> simp

theorem visit_tx (G : String → String × Option Error) (fault : Fault) (db : FileInfoMap)
    (lim : Int) (st : Run) (inode : Nat) (fi : FileInfo) :
    ((visit G fault db lim st inode fi).1.tx, (visit G fault db lim st inode fi).2)
      = match opFor G db lim (inode, fi) with
        | none => (st.tx, none)
        | some op => st.tx.call fault op := by
  unfold visit opFor
  cases hdb : mapGet db inode with
  | none =>
    simp only []
    rw [← hashIfSmall_fst G lim st inode fi, ← hashIfSmall_tx G lim st inode fi]
  | some d =>
    simp only []
    by_cases h : fi.ModTime > d.ModTime
    · simp only [h, if_true]
      rw [← hashIfSmall_fst G lim st inode fi, ← hashIfSmall_tx G lim st inode fi]
    · simp only [h, if_false]

theorem visit_hashed (G : String → String × Option Error) (fault : Fault) (db : FileInfoMap)
    (lim : Int) (st : Run) (inode : Nat) (fi : FileInfo) :
    (visit G fault db lim st inode fi).1.hashed
      = st.hashed ++ (if hashedFor db lim (inode, fi) then [fi] else []) := by
  unfold visit hashedFor
  cases hdb : mapGet db inode with
  | none =>
    simp only [Bool.true_and, decide_eq_true_eq]
    exact hashIfSmall_hashed G lim st inode fi
  | some d =>
    simp only []
    by_cases h : fi.ModTime > d.ModTime
    · simp only [h, if_true, decide_True, Bool.true_and, decide_eq_true_eq]
      exact hashIfSmall_hashed G lim st inode fi
    · simp [h]

theorem rangeCurr_tx (G : String → String × Option Error) (fault : Fault) (db : FileInfoMap)
    (lim : Int) (l : FileInfoMap) (st : Run) :
    ((rangeCurr G fault db lim l st).1.tx, (rangeCurr G fault db lim l st).2)
      = replay fault st.tx (l.filterMap (opFor G db lim)) := by
  induction l generalizing st with
  | nil => simp [rangeCurr, replay]
  | cons hd tl ih =>
    obtain ⟨inode, fi⟩ := hd
    have hv := visit_tx G fault db lim st inode fi
    unfold rangeCurr
    cases hop : opFor G db lim (inode, fi) with
    | none =>
      simp only [hop, Prod.mk.injEq] at hv
      rw [List.filterMap_cons, hop]
      cases hvis : visit G fault db lim st inode fi with
      | mk st' e =>
        rw [hvis] at hv
        simp only at hv
        obtain ⟨h1, h2⟩ := hv
        subst h2
        simp only []
        rw [ih st', h1]
    | some op =>
      simp only [hop] at hv
      rw [List.filterMap_cons, hop]
      simp only [replay]
      cases hvis : visit G fault db lim st inode fi with
      | mk st' e =>
        rw [hvis] at hv
        simp only at hv
        rw [← hv]
        cases e with
        | none => simp only []; exact ih st'
        | some err => simp only []

theorem rangeCurr_hashed (G : String → String × Option Error) (fault : Fault) (db : FileInfoMap)
    (lim : Int) (l : FileInfoMap) (st : Run) :
    ∃ h, (rangeCurr G fault db lim l st).1.hashed = st.hashed ++ h ∧
      h <+: (l.filter (hashedFor db lim)).map Prod.snd ∧
      ((rangeCurr G fault db lim l st).2 = none →
        h = (l.filter (hashedFor db lim)).map Prod.snd) := by
  induction l generalizing st with
  | nil => exact ⟨[], by simp [rangeCurr]⟩
  | cons hd tl ih =>
    obtain ⟨inode, fi⟩ := hd
    have hv := visit_hashed G fault db lim st inode fi
    unfold rangeCurr
    cases hvis : visit G fault db lim st inode fi with
    | mk st' e =>
      rw [hvis] at hv
      simp only at hv
      cases e with
      | some err =>
        refine ⟨if hashedFor db lim (inode, fi) then [fi] else [], hv, ?_, ?_⟩
        · by_cases hh : hashedFor db lim (inode, fi) = true
          · simp [hh, List.filter_cons]
          · simp [hh]
        · intro hc; simp at hc
      | none =>
        obtain ⟨h, h1, h2, h3⟩ := ih st'
        simp only []
        refine ⟨(if hashedFor db lim (inode, fi) then [fi] else []) ++ h, ?_, ?_, ?_⟩
        · rw [h1, hv, List.append_assoc]
        · by_cases hh : hashedFor db lim (inode, fi) = true
          · simp only [hh, if_true, List.filter_cons, List.map_cons, List.singleton_append]
            exact (List.prefix_cons_inj fi).mpr h2
          · simp only [hh, List.filter_cons, List.nil_append]
            simpa using h2
        · intro hc
          rw [h3 hc]
          by_cases hh : hashedFor db lim (inode, fi) = true
          · simp [hh, List.filter_cons]
          · simp [hh, List.filter_cons]

theorem transactionBody_tx (G : String → String × Option Error) (fault : Fault)
    (s : FileScanner) (lim : Int) (tx : DB) :
    ((transactionBody G fault s lim tx).1.tx, (transactionBody G fault s lim tx).2)
      = replay fault tx (plannedOps G s lim) := by
  unfold transactionBody plannedOps
  by_cases h : (needDeleteFileInfoList s.dbFileInfoMap s.currFileInfoMap).length > 0
  · simp only [h, if_true, List.singleton_append, replay]
    cases hc : tx.call fault
        (StoreOp.Delete (needDeleteFileInfoList s.dbFileInfoMap s.currFileInfoMap)) with
    | mk tx' e =>
      cases e with
      | some err => simp only []
      | none =>
        simp only []
        exact rangeCurr_tx G fault s.dbFileInfoMap lim s.currFileInfoMap _
  · simp only [h, if_false, List.nil_append]
    exact rangeCurr_tx G fault s.dbFileInfoMap lim s.currFileInfoMap _

theorem transactionBody_hashed (G : String → String × Option Error) (fault : Fault)
    (s : FileScanner) (lim : Int) (tx : DB) :
    (transactionBody G fault s lim tx).1.hashed
        <+: (s.currFileInfoMap.filter (hashedFor s.dbFileInfoMap lim)).map Prod.snd ∧
      ((transactionBody G fault s lim tx).2 = none →
        (transactionBody G fault s lim tx).1.hashed
          = (s.currFileInfoMap.filter (hashedFor s.dbFileInfoMap lim)).map Prod.snd) := by
  unfold transactionBody
  by_cases h : (needDeleteFileInfoList s.dbFileInfoMap s.currFileInfoMap).length > 0
  · simp only [h, if_true]
    cases hc : DB.call fault tx
        (StoreOp.Delete (needDeleteFileInfoList s.dbFileInfoMap s.currFileInfoMap)) with
    | mk tx' e =>
      cases e with
      | some err => simp
      | none =>
        simp only []
        obtain ⟨hh, h1, h2, h3⟩ := rangeCurr_hashed G fault s.dbFileInfoMap lim
          s.currFileInfoMap { tx := tx', curr := s.currFileInfoMap, hashed := [] }
        simp only [List.nil_append] at h1
        rw [h1]
        exact ⟨h2, h3⟩
  · simp only [h, if_false]
    obtain ⟨hh, h1, h2, h3⟩ := rangeCurr_hashed G fault s.dbFileInfoMap lim
      s.currFileInfoMap { tx := tx, curr := s.currFileInfoMap, hashed := [] }
    simp only [List.nil_append] at h1
    rw [h1]
    exact ⟨h2, h3⟩


theorem faultAt_cons_zero (fault : Fault) (rows : List FileInfo) (op : StoreOp)
    (ops : List StoreOp) : faultAt fault rows (op :: ops) 0 = fault rows op := by
  simp [faultAt]

theorem faultAt_cons_succ (fault : Fault) (rows : List FileInfo) (op : StoreOp)
    (ops : List StoreOp) (k : Nat) :
    faultAt fault rows (op :: ops) (k + 1) = faultAt fault (applyOp rows op) ops k := by
  simp [faultAt]

theorem replay_spec (fault : Fault) (ops : List StoreOp) (tx : DB) :
    ∃ c, (replay fault tx ops).1.calls = tx.calls ++ c ∧ c <+: ops ∧
      ((replay fault tx ops).2 = none →
        c = ops ∧ (replay fault tx ops).1.rows = c.foldl applyOp tx.rows ∧
          ∀ k, faultAt fault tx.rows c k = none) ∧
      (∀ e, (replay fault tx ops).2 = some e →
        c ≠ [] ∧ faultAt fault tx.rows c (c.length - 1) = some e ∧
          ∀ k, k + 1 < c.length → faultAt fault tx.rows c k = none) := by
  induction ops generalizing tx with
  | nil =>
    refine ⟨[], by simp [replay], List.prefix_refl _, ?_, ?_⟩
    · intro _
      exact ⟨rfl, by simp [replay], fun k => by simp [faultAt]⟩
    · intro e he
      simp [replay] at he
  | cons op ops ih =>
    cases hf : fault tx.rows op with
    | some err =>
      have hr : replay fault tx (op :: ops)
          = ({ tx with calls := tx.calls ++ [op] }, some err) := by
        simp [replay, DB.call, hf]
      refine ⟨[op], by rw [hr], by simp, ?_, ?_⟩
      · intro h; rw [hr] at h; simp at h
      · intro e he
        rw [hr] at he
        simp only [Option.some.injEq] at he
        subst he
        refine ⟨by simp, ?_, ?_⟩
        · simpa [faultAt] using hf
        · intro k hk; simp at hk
    | none =>
      have hr : replay fault tx (op :: ops)
          = replay fault { rows := applyOp tx.rows op, calls := tx.calls ++ [op] } ops := by
        simp [replay, DB.call, hf]
      obtain ⟨c, h1, h2, h3, h4⟩ :=
        ih { rows := applyOp tx.rows op, calls := tx.calls ++ [op] }
      refine ⟨op :: c, ?_, (List.prefix_cons_inj op).mpr h2, ?_, ?_⟩
      · rw [hr, h1]; simp
      · intro h
        rw [hr] at h
        obtain ⟨a, b, d⟩ := h3 h
        refine ⟨by rw [a], ?_, ?_⟩
        · rw [hr, b]; rfl
        · intro k
          cases k with
          | zero => rw [faultAt_cons_zero]; exact hf
          | succ k => rw [faultAt_cons_succ]; exact d k
      · intro e he
        rw [hr] at he
        obtain ⟨a, b, d⟩ := h4 e he
        refine ⟨by simp, ?_, ?_⟩
        · obtain ⟨x, xs, hx⟩ := List.exists_cons_of_ne_nil a
          subst hx
          simp only [List.length_cons, Nat.add_sub_cancel] at b ⊢
          rw [faultAt_cons_succ]
          exact b
        · intro k hk
          cases k with
          | zero => rw [faultAt_cons_zero]; exact hf
          | succ k =>
            rw [faultAt_cons_succ]
            apply d
            simp only [List.length_cons] at hk
            omega

/-- The run of `UpdateDBWithHashSizeLimit` in terms of its planned calls. -/
theorem run_spec (G : String → String × Option Error) (fault : Fault)
    (s : FileScanner) (lim : Int) :
    issued s (UpdateDBWithHashSizeLimit G fault s lim) <+: plannedOps G s lim ∧
      ((UpdateDBWithHashSizeLimit G fault s lim).err = none →
        issued s (UpdateDBWithHashSizeLimit G fault s lim) = plannedOps G s lim ∧
        (UpdateDBWithHashSizeLimit G fault s lim).scanner.DB.rows
          = (issued s (UpdateDBWithHashSizeLimit G fault s lim)).foldl applyOp s.DB.rows ∧
        ∀ k, faultAt fault s.DB.rows
          (issued s (UpdateDBWithHashSizeLimit G fault s lim)) k = none) ∧
      (∀ e, (UpdateDBWithHashSizeLimit G fault s lim).err = some e →
        (UpdateDBWithHashSizeLimit G fault s lim).scanner.DB.rows = s.DB.rows ∧
        issued s (UpdateDBWithHashSizeLimit G fault s lim) ≠ [] ∧
        faultAt fault s.DB.rows (issued s (UpdateDBWithHashSizeLimit G fault s lim))
          ((issued s (UpdateDBWithHashSizeLimit G fault s lim)).length - 1) = some e ∧
        ∀ k, k + 1 < (issued s (UpdateDBWithHashSizeLimit G fault s lim)).length →
          faultAt fault s.DB.rows
            (issued s (UpdateDBWithHashSizeLimit G fault s lim)) k = none) := by
  have hb := transactionBody_tx G fault s lim s.DB
  obtain ⟨c, h1, h2, h3, h4⟩ := replay_spec fault (plannedOps G s lim) s.DB
  rw [← hb] at h1 h3 h4
  simp only at h1 h3 h4
  cases hbody : transactionBody G fault s lim s.DB with
  | mk st err =>
    rw [hbody] at h1 h3 h4
    simp only at h1 h3 h4
    cases err with
    | none =>
      have hout : UpdateDBWithHashSizeLimit G fault s lim
          = { scanner := { s with DB := st.tx, currFileInfoMap := st.curr }
              hashed := st.hashed, err := none } := by
        simp [UpdateDBWithHashSizeLimit, Transaction, hbody]
      have hi : issued s (UpdateDBWithHashSizeLimit G fault s lim) = c := by
        simp [issued, hout, h1]
      rw [hi]
      refine ⟨h2, ?_, ?_⟩
      · intro _
        obtain ⟨a, b, d⟩ := h3 rfl
        exact ⟨a, by rw [hout]; exact b, d⟩
      · intro e he
        rw [hout] at he
        simp at he
    | some err =>
      have hout : UpdateDBWithHashSizeLimit G fault s lim
          = { scanner := { s with DB := { st.tx with rows := s.DB.rows },
                                  currFileInfoMap := st.curr }
              hashed := st.hashed, err := some err } := by
        simp [UpdateDBWithHashSizeLimit, Transaction, hbody]
      have hi : issued s (UpdateDBWithHashSizeLimit G fault s lim) = c := by
        simp [issued, hout, h1]
      rw [hi]
      refine ⟨h2, ?_, ?_⟩
      · intro he
        rw [hout] at he
        simp at he
      · intro e he
        rw [hout] at he
        simp only [Option.some.injEq] at he
        subst he
        obtain ⟨a, b, d⟩ := h4 err rfl
        exact ⟨by rw [hout], a, b, d⟩

theorem run_hashed (G : String → String × Option Error) (fault : Fault)
    (s : FileScanner) (lim : Int) :
    (UpdateDBWithHashSizeLimit G fault s lim).hashed
        <+: (s.currFileInfoMap.filter (hashedFor s.dbFileInfoMap lim)).map Prod.snd ∧
      ((UpdateDBWithHashSizeLimit G fault s lim).err = none →
        (UpdateDBWithHashSizeLimit G fault s lim).hashed
          = (s.currFileInfoMap.filter (hashedFor s.dbFileInfoMap lim)).map Prod.snd) := by
  obtain ⟨h1, h2⟩ := transactionBody_hashed G fault s lim s.DB
  cases hbody : transactionBody G fault s lim s.DB with
  | mk st err =>
    rw [hbody] at h1 h2
    simp only at h1 h2
    cases err with
    | none =>
      have hout : UpdateDBWithHashSizeLimit G fault s lim
          = { scanner := { s with DB := st.tx, currFileInfoMap := st.curr }
              hashed := st.hashed, err := none } := by
        simp [UpdateDBWithHashSizeLimit, Transaction, hbody]
      rw [hout]
      exact ⟨h1, fun _ => h2 rfl⟩
    | some err =>
      have hout : UpdateDBWithHashSizeLimit G fault s lim
          = { scanner := { s with DB := { st.tx with rows := s.DB.rows },
                                  currFileInfoMap := st.curr }
              hashed := st.hashed, err := some err } := by
        simp [UpdateDBWithHashSizeLimit, Transaction, hbody]
      rw [hout]
      exact ⟨h1, fun h => by simp at h⟩


/-! ## The calls of a run without failure -/

theorem deleteBatches_append (a b : List StoreOp) :
    deleteBatches (a ++ b) = deleteBatches a ++ deleteBatches b := by
  induction a with
  | nil => rfl
  | cons op a ih => cases op <;> simp [deleteBatches, ih]

theorem updatesOf_append (a b : List StoreOp) :
    updatesOf (a ++ b) = updatesOf a ++ updatesOf b := by
  induction a with
  | nil => rfl
  | cons op a ih => cases op <;> simp [updatesOf, ih]

theorem createsOf_append (a b : List StoreOp) :
    createsOf (a ++ b) = createsOf a ++ createsOf b := by
  induction a with
  | nil => rfl
  | cons op a ih => cases op <;> simp [createsOf, ih]

theorem stamped_Inode (G : String → String × Option Error) (lim : Int) (fi : FileInfo) :
    (stamped G lim fi).Inode = fi.Inode := by
  unfold stamped; split <;> rfl

theorem stamped_ModTime (G : String → String × Option Error) (lim : Int) (fi : FileInfo) :
    (stamped G lim fi).ModTime = fi.ModTime := by
  unfold stamped; split <;> rfl

theorem opFor_cases (G : String → String × Option Error) (db : FileInfoMap) (lim : Int)
    (p : Nat × FileInfo) :
    opFor G db lim p = none ∨ opFor G db lim p = some (.Updates (stamped G lim p.2)) ∨
      opFor G db lim p = some (.Create (stamped G lim p.2)) := by
  unfold opFor
  cases mapGet db p.1 with
  | none => simp
  | some d => by_cases h : p.2.ModTime > d.ModTime <;> simp [h]

theorem deleteBatches_loop (G : String → String × Option Error) (db : FileInfoMap) (lim : Int)
    (l : FileInfoMap) : deleteBatches (l.filterMap (opFor G db lim)) = [] := by
  induction l with
  | nil => rfl
  | cons p l ih =>
    rw [List.filterMap_cons]
    rcases opFor_cases G db lim p with h | h | h <;> rw [h] <;> simp [deleteBatches, ih]

theorem updatesOf_loop_filter (G : String → String × Option Error) (db : FileInfoMap)
    (lim : Int) (i : Nat) (l : FileInfoMap) (hk : KeyedByInode l) :
    (updatesOf (l.filterMap (opFor G db lim))).filter (fun r => decide (r.Inode = i))
      = updatesOf ((l.filter (fun p => decide (p.1 = i))).filterMap (opFor G db lim)) := by
  induction l with
  | nil => rfl
  | cons p l ih =>
    have hp : p.2.Inode = p.1 := hk p (List.mem_cons_self _ _)
    have hl : KeyedByInode l := fun q hq => hk q (List.mem_cons_of_mem _ hq)
    have ih := ih hl
    rw [List.filterMap_cons, List.filter_cons]
    by_cases e : p.1 = i
    · simp only [e, decide_True, if_true, List.filterMap_cons]
      rcases opFor_cases G db lim p with h | h | h <;> rw [h] <;>
        simp [updatesOf, ih, List.filter_cons, stamped_Inode, hp, e]
    · simp only [e, decide_False, Bool.false_eq_true, if_false]
      rcases opFor_cases G db lim p with h | h | h <;> rw [h] <;>
        simp [updatesOf, ih, List.filter_cons, stamped_Inode, hp, e]

theorem createsOf_loop_filter (G : String → String × Option Error) (db : FileInfoMap)
    (lim : Int) (i : Nat) (l : FileInfoMap) (hk : KeyedByInode l) :
    (createsOf (l.filterMap (opFor G db lim))).filter (fun r => decide (r.Inode = i))
      = createsOf ((l.filter (fun p => decide (p.1 = i))).filterMap (opFor G db lim)) := by
  induction l with
  | nil => rfl
  | cons p l ih =>
    have hp : p.2.Inode = p.1 := hk p (List.mem_cons_self _ _)
    have hl : KeyedByInode l := fun q hq => hk q (List.mem_cons_of_mem _ hq)
    have ih := ih hl
    rw [List.filterMap_cons, List.filter_cons]
    by_cases e : p.1 = i
    · simp only [e, decide_True, if_true, List.filterMap_cons]
      rcases opFor_cases G db lim p with h | h | h <;> rw [h] <;>
        simp [createsOf, ih, List.filter_cons, stamped_Inode, hp, e]
    · simp only [e, decide_False, Bool.false_eq_true, if_false]
      rcases opFor_cases G db lim p with h | h | h <;> rw [h] <;>
        simp [createsOf, ih, List.filter_cons, stamped_Inode, hp, e]

theorem deleteBatches_planned (G : String → String × Option Error) (s : FileScanner)
    (lim : Int) :
    deleteBatches (plannedOps G s lim)
      = if (needDeleteFileInfoList s.dbFileInfoMap s.currFileInfoMap).length > 0 then
          [needDeleteFileInfoList s.dbFileInfoMap s.currFileInfoMap]
        else [] := by
  unfold plannedOps
  rw [deleteBatches_append, deleteBatches_loop]
  split <;> simp [deleteBatches]

theorem updatesOf_planned (G : String → String × Option Error) (s : FileScanner)
    (lim : Int) :
    updatesOf (plannedOps G s lim)
      = updatesOf (s.currFileInfoMap.filterMap (opFor G s.dbFileInfoMap lim)) := by
  unfold plannedOps
  rw [updatesOf_append]
  split <;> simp [updatesOf]

theorem createsOf_planned (G : String → String × Option Error) (s : FileScanner)
    (lim : Int) :
    createsOf (plannedOps G s lim)
      = createsOf (s.currFileInfoMap.filterMap (opFor G s.dbFileInfoMap lim)) := by
  unfold plannedOps
  rw [createsOf_append]
  split <;> simp [createsOf]

theorem mem_needDelete (db curr : FileInfoMap) (hdb : DistinctKeys db) (r : FileInfo) :
    r ∈ needDeleteFileInfoList db curr
      ↔ ∃ i, mapGet db i = some r ∧ mapGet curr i = none := by
  unfold needDeleteFileInfoList
  simp only [List.mem_map, List.mem_filter, Option.isNone_iff_eq_none]
  constructor
  · rintro ⟨⟨k, v⟩, ⟨hmem, hnone⟩, rfl⟩
    exact ⟨k, mapGet_of_mem db hdb k v hmem, hnone⟩
  · rintro ⟨i, hget, hnone⟩
    exact ⟨(i, r), ⟨mem_of_mapGet db i r hget, hnone⟩, rfl⟩

theorem needDelete_nodup (db curr : FileInfoMap) (hdb : DistinctKeys db)
    (hk : KeyedByInode db) : (needDeleteFileInfoList db curr).Nodup := by
  have h1 : (db.map Prod.snd).Nodup := by
    apply List.Nodup.of_map FileInfo.Inode
    have : (db.map Prod.snd).map FileInfo.Inode = db.map Prod.fst := by
      rw [List.map_map]
      apply List.map_congr_left
      intro p hp
      exact hk p hp
    rw [this]
    exact hdb
  unfold needDeleteFileInfoList
  exact List.Nodup.sublist (List.Sublist.map _ (List.filter_sublist _)) h1

theorem mapGet_Inode (m : FileInfoMap) (hk : KeyedByInode m) (i : Nat) (r : FileInfo)
    (h : mapGet m i = some r) : r.Inode = i :=
  hk (i, r) (mem_of_mapGet m i r h)

theorem forall_ne_of_filter_nil (l : List FileInfo) (i : Nat)
    (h : l.filter (fun r => decide (r.Inode = i)) = []) : ∀ r ∈ l, r.Inode ≠ i := by
  intro r hr e
  have := List.filter_eq_nil_iff.mp h r hr
  simp [e] at this

theorem not_mem_needDelete (db curr : FileInfoMap) (hk : KeyedByInode db) (i : Nat)
    (c : FileInfo) (hc : mapGet curr i = some c) :
    ∀ r ∈ needDeleteFileInfoList db curr, r.Inode ≠ i := by
  intro r hr e
  unfold needDeleteFileInfoList at hr
  simp only [List.mem_map, List.mem_filter, Option.isNone_iff_eq_none] at hr
  obtain ⟨⟨k, v⟩, ⟨hmem, hnone⟩, rfl⟩ := hr
  have : v.Inode = k := hk (k, v) hmem
  simp only at e hnone
  rw [← this, e, hc] at hnone
  simp at hnone

theorem not_mem_deleteBatches_planned (G : String → String × Option Error) (s : FileScanner)
    (lim : Int) (hk : KeyedByInode s.dbFileInfoMap) (i : Nat) (c : FileInfo)
    (hc : mapGet s.currFileInfoMap i = some c) :
    ∀ b ∈ deleteBatches (plannedOps G s lim), ∀ r ∈ b, r.Inode ≠ i := by
  intro b hb
  rw [deleteBatches_planned] at hb
  split at hb
  · simp only [List.mem_singleton] at hb
    subst hb
    exact not_mem_needDelete _ _ hk i c hc
  · simp at hb


/-! ## Properties of reconciliation -/

/-- C1, deletion completeness: in a run of `UpdateDBWithHashSizeLimit` in which no
store call fails, when some inode is in the prior mapping and not in the current
one there is exactly one `Delete` call, its batch holds each record of such an
inode exactly once and nothing else, and no create and no update is issued for
such an inode; when there is no such inode no `Delete` call is issued. -/
theorem deletion_completeness (G : String → String × Option Error) (fault : Fault)
    (s : FileScanner) (hashSizeLimit : Int)
    (hdb : DistinctKeys s.dbFileInfoMap) (hdbk : KeyedByInode s.dbFileInfoMap)
    (hck : KeyedByInode s.currFileInfoMap)
    (hok : (UpdateDBWithHashSizeLimit G fault s hashSizeLimit).err = none) :
    ((∃ i, mapGet s.dbFileInfoMap i ≠ none ∧ mapGet s.currFileInfoMap i = none) →
      ∃ batch,
        deleteBatches (issued s (UpdateDBWithHashSizeLimit G fault s hashSizeLimit)) = [batch] ∧
        batch.Nodup ∧
        ∀ r, r ∈ batch ↔
          ∃ i, mapGet s.dbFileInfoMap i = some r ∧ mapGet s.currFileInfoMap i = none) ∧
    ((¬ ∃ i, mapGet s.dbFileInfoMap i ≠ none ∧ mapGet s.currFileInfoMap i = none) →
      deleteBatches (issued s (UpdateDBWithHashSizeLimit G fault s hashSizeLimit)) = []) ∧
    (∀ i, mapGet s.dbFileInfoMap i ≠ none → mapGet s.currFileInfoMap i = none →
      (∀ r ∈ createsOf (issued s (UpdateDBWithHashSizeLimit G fault s hashSizeLimit)),
        r.Inode ≠ i) ∧
      (∀ r ∈ updatesOf (issued s (UpdateDBWithHashSizeLimit G fault s hashSizeLimit)),
        r.Inode ≠ i)) := by
  have hrun := (run_spec G fault s hashSizeLimit).2.1 hok
  rw [hrun.1]
  have hmem := mem_needDelete s.dbFileInfoMap s.currFileInfoMap hdb
  refine ⟨?_, ?_, ?_⟩
  · rintro ⟨i, hi, hnone⟩
    obtain ⟨r, hr⟩ := Option.ne_none_iff_exists'.mp hi
    have hin : r ∈ needDeleteFileInfoList s.dbFileInfoMap s.currFileInfoMap :=
      (hmem r).mpr ⟨i, hr, hnone⟩
    have hlen : (needDeleteFileInfoList s.dbFileInfoMap s.currFileInfoMap).length > 0 :=
      List.length_pos_of_mem hin
    refine ⟨needDeleteFileInfoList s.dbFileInfoMap s.currFileInfoMap, ?_,
      needDelete_nodup _ _ hdb hdbk, hmem⟩
    rw [deleteBatches_planned]
    simp [hlen]
  · intro hno
    rw [deleteBatches_planned]
    have : needDeleteFileInfoList s.dbFileInfoMap s.currFileInfoMap = [] := by
      apply List.eq_nil_iff_forall_not_mem.mpr
      intro r hr
      obtain ⟨i, h1, h2⟩ := (hmem r).mp hr
      exact hno ⟨i, by simp [h1], h2⟩
    simp [this]
  · intro i _ hnone
    have hf := filter_key_of_mapGet_none s.currFileInfoMap i hnone
    constructor
    · apply forall_ne_of_filter_nil
      rw [createsOf_planned, createsOf_loop_filter _ _ _ _ _ hck, hf]
      rfl
    · apply forall_ne_of_filter_nil
      rw [updatesOf_planned, updatesOf_loop_filter _ _ _ _ _ hck, hf]
      rfl

/-- C2, update gating: for an inode in both mappings, a run of
`UpdateDBWithHashSizeLimit` in which no store call fails issues exactly one update
for it when the current `ModTime` is strictly after the prior one and none
otherwise, and in both cases no create and no delete for it, whatever the other
fields of the two records are. -/
theorem update_gating (G : String → String × Option Error) (fault : Fault)
    (s : FileScanner) (hashSizeLimit : Int) (i : Nat) (prior current : FileInfo)
    (hdbk : KeyedByInode s.dbFileInfoMap)
    (hc : DistinctKeys s.currFileInfoMap) (hck : KeyedByInode s.currFileInfoMap)
    (hprior : mapGet s.dbFileInfoMap i = some prior)
    (hcurrent : mapGet s.currFileInfoMap i = some current)
    (hok : (UpdateDBWithHashSizeLimit G fault s hashSizeLimit).err = none) :
    (current.ModTime > prior.ModTime →
      (updatesOf (issued s (UpdateDBWithHashSizeLimit G fault s hashSizeLimit))).filter
        (fun r => decide (r.Inode = i)) = [stamped G hashSizeLimit current]) ∧
    (¬ current.ModTime > prior.ModTime →
      ∀ r ∈ updatesOf (issued s (UpdateDBWithHashSizeLimit G fault s hashSizeLimit)),
        r.Inode ≠ i) ∧
    (∀ r ∈ createsOf (issued s (UpdateDBWithHashSizeLimit G fault s hashSizeLimit)),
      r.Inode ≠ i) ∧
    (∀ b ∈ deleteBatches (issued s (UpdateDBWithHashSizeLimit G fault s hashSizeLimit)),
      ∀ r ∈ b, r.Inode ≠ i) := by
  have hrun := (run_spec G fault s hashSizeLimit).2.1 hok
  rw [hrun.1]
  have hf := filter_key_of_mapGet s.currFileInfoMap hc i current hcurrent
  refine ⟨?_, ?_, ?_, not_mem_deleteBatches_planned G s hashSizeLimit hdbk i current hcurrent⟩
  · intro hafter
    rw [updatesOf_planned, updatesOf_loop_filter _ _ _ _ _ hck, hf]
    simp [opFor, hprior, hafter, updatesOf]
  · intro hnot
    apply forall_ne_of_filter_nil
    rw [updatesOf_planned, updatesOf_loop_filter _ _ _ _ _ hck, hf]
    simp [opFor, hprior, hnot, updatesOf]
  · apply forall_ne_of_filter_nil
    rw [createsOf_planned, createsOf_loop_filter _ _ _ _ _ hck, hf]
    by_cases hafter : current.ModTime > prior.ModTime <;>
      simp [opFor, hprior, hafter, createsOf]

/-- C3, insertion correctness: for an inode in the current mapping and not in the
prior one, a run of `UpdateDBWithHashSizeLimit` in which no store call fails issues
exactly one create for it and no update or delete; the created record has the
observed inode, name, path, size and modification time, and its hash is non-empty
exactly when the size is within the limit and the hasher succeeds on the path, in
which case it is the hasher's digest.  The observed record has an empty hash, as
`walkDir` builds it, and the hasher returns a non-empty digest exactly when it
returns no error. -/
theorem insertion_correctness (G : String → String × Option Error) (fault : Fault)
    (s : FileScanner) (hashSizeLimit : Int) (i : Nat) (current : FileInfo)
    (hG : HasherContract G)
    (hdbk : KeyedByInode s.dbFileInfoMap)
    (hc : DistinctKeys s.currFileInfoMap) (hck : KeyedByInode s.currFileInfoMap)
    (hprior : mapGet s.dbFileInfoMap i = none)
    (hcurrent : mapGet s.currFileInfoMap i = some current)
    (hempty : current.Hash = "")
    (hok : (UpdateDBWithHashSizeLimit G fault s hashSizeLimit).err = none) :
    (∃ r,
      (createsOf (issued s (UpdateDBWithHashSizeLimit G fault s hashSizeLimit))).filter
        (fun r => decide (r.Inode = i)) = [r] ∧
      r.Inode = i ∧ r.Name = current.Name ∧ r.Path = current.Path ∧
      r.Size = current.Size ∧ r.ModTime = current.ModTime ∧
      (r.Hash ≠ "" ↔ (current.Size ≤ hashSizeLimit ∧ (G current.Path).2 = none)) ∧
      (current.Size ≤ hashSizeLimit → (G current.Path).2 = none →
        r.Hash = (G current.Path).1)) ∧
    (∀ r ∈ updatesOf (issued s (UpdateDBWithHashSizeLimit G fault s hashSizeLimit)),
      r.Inode ≠ i) ∧
    (∀ b ∈ deleteBatches (issued s (UpdateDBWithHashSizeLimit G fault s hashSizeLimit)),
      ∀ r ∈ b, r.Inode ≠ i) := by
  have hrun := (run_spec G fault s hashSizeLimit).2.1 hok
  rw [hrun.1]
  have hf := filter_key_of_mapGet s.currFileInfoMap hc i current hcurrent
  have hin : current.Inode = i := mapGet_Inode _ hck i current hcurrent
  refine ⟨⟨stamped G hashSizeLimit current, ?_, ?_⟩, ?_,
    not_mem_deleteBatches_planned G s hashSizeLimit hdbk i current hcurrent⟩
  · rw [createsOf_planned, createsOf_loop_filter _ _ _ _ _ hck, hf]
    simp [opFor, hprior, createsOf]
  · unfold stamped
    by_cases hsz : current.Size ≤ hashSizeLimit
    · rw [if_pos hsz]
      exact ⟨hin, rfl, rfl, rfl, rfl,
        ⟨fun h => ⟨hsz, (hG current.Path).mpr h⟩, fun h => (hG current.Path).mp h.2⟩,
        fun _ _ => rfl⟩
    · simp [hsz, hin, hempty]
  · apply forall_ne_of_filter_nil
    rw [updatesOf_planned, updatesOf_loop_filter _ _ _ _ _ hck, hf]
    simp [opFor, hprior, updatesOf]

theorem faultAt_of_length_le (fault : Fault) (rows : List FileInfo) (ops : List StoreOp)
    (k : Nat) (h : ops.length ≤ k) : faultAt fault rows ops k = none := by
  unfold faultAt
  rw [List.get?_eq_none.mpr h]

/-- C7, transactional atomicity: when a store call issued by
`UpdateDBWithHashSizeLimit` fails, the run returns that call's error, the failing
call is the last one issued, and the rows of the store are those from before the
run; when no issued call fails, the run returns nil and the rows are those
obtained by applying every issued call in order. -/
theorem transactional_atomicity (G : String → String × Option Error) (fault : Fault)
    (s : FileScanner) (hashSizeLimit : Int) :
    (∀ k e,
      faultAt fault s.DB.rows
          (issued s (UpdateDBWithHashSizeLimit G fault s hashSizeLimit)) k = some e →
        (UpdateDBWithHashSizeLimit G fault s hashSizeLimit).err = some e ∧
        (issued s (UpdateDBWithHashSizeLimit G fault s hashSizeLimit)).length = k + 1 ∧
        (UpdateDBWithHashSizeLimit G fault s hashSizeLimit).scanner.DB.rows = s.DB.rows) ∧
    ((∀ k, faultAt fault s.DB.rows
          (issued s (UpdateDBWithHashSizeLimit G fault s hashSizeLimit)) k = none) →
        (UpdateDBWithHashSizeLimit G fault s hashSizeLimit).err = none ∧
        (UpdateDBWithHashSizeLimit G fault s hashSizeLimit).scanner.DB.rows
          = (issued s (UpdateDBWithHashSizeLimit G fault s hashSizeLimit)).foldl
              applyOp s.DB.rows) := by
  obtain ⟨_, hnone, hsome⟩ := run_spec G fault s hashSizeLimit
  cases herr : (UpdateDBWithHashSizeLimit G fault s hashSizeLimit).err with
  | none =>
    obtain ⟨_, hrows, hall⟩ := hnone herr
    refine ⟨?_, fun _ => ⟨rfl, hrows⟩⟩
    intro k e hk
    rw [hall k] at hk
    simp at hk
  | some err =>
    obtain ⟨hrows, hne, hlast, hbefore⟩ := hsome err herr
    refine ⟨?_, ?_⟩
    · intro k e hk
      have hlen : 0 < (issued s (UpdateDBWithHashSizeLimit G fault s hashSizeLimit)).length :=
        List.length_pos.mpr hne
      have h1 : k < (issued s (UpdateDBWithHashSizeLimit G fault s hashSizeLimit)).length := by
        by_contra hcon
        rw [faultAt_of_length_le _ _ _ _ (Nat.le_of_not_lt hcon)] at hk
        simp at hk
      have h2 : ¬ k + 1 < (issued s (UpdateDBWithHashSizeLimit G fault s hashSizeLimit)).length := by
        intro hcon
        rw [hbefore k hcon] at hk
        simp at hk
      have h3 : (issued s (UpdateDBWithHashSizeLimit G fault s hashSizeLimit)).length - 1 = k := by
        omega
      rw [h3, hk] at hlast
      refine ⟨by rw [hlast], by omega, hrows⟩
    · intro hall
      rw [hall] at hlast
      simp at hlast


/-! ## The rows of the store after a run -/

theorem findRow_Inode (rows : List FileInfo) (i : Nat) (r : FileInfo)
    (h : findRow rows i = some r) : r.Inode = i := by
  induction rows with
  | nil => simp [findRow] at h
  | cons x rows ih =>
    by_cases e : x.Inode = i
    · simp [findRow, e] at h; rw [← h]; exact e
    · simp [findRow, e] at h; exact ih h

theorem findRow_applyOp (rows : List FileInfo) (op : StoreOp) (i : Nat) :
    findRow (applyOp rows op) i = rowAfter op i (findRow rows i) := by
  cases op with
  | Delete value =>
    induction rows with
    | nil => simp [applyOp, findRow, rowAfter]
    | cons x rows ih =>
      simp only [applyOp, rowAfter] at ih ⊢
      by_cases hx : x.Inode ∈ value.map FileInfo.Inode
      · rw [List.filter_cons_of_neg (by simpa using hx), ih]
        by_cases e : x.Inode = i
        · have : i ∈ value.map FileInfo.Inode := e ▸ hx
          simp [this]
        · simp [findRow, e]
      · rw [List.filter_cons_of_pos (by simpa using hx)]
        by_cases e : x.Inode = i
        · have : i ∉ value.map FileInfo.Inode := e ▸ hx
          simp [findRow, e, this]
        · simp only [findRow, e, if_false]
          exact ih
  | Updates value =>
    induction rows with
    | nil => simp [applyOp, findRow, rowAfter]
    | cons x rows ih =>
      simp only [applyOp, rowAfter, List.map_cons] at ih ⊢
      have hin : (if x.Inode = value.Inode then updatesRow x value else x).Inode = x.Inode := by
        split <;> rfl
      by_cases e : x.Inode = i
      · simp only [findRow]
        rw [if_pos (hin.trans e), if_pos e]
        rfl
      · simp only [findRow]
        rw [if_neg (by rw [hin]; exact e), if_neg e]
        exact ih
  | Create value =>
    induction rows with
    | nil => simp [applyOp, findRow, rowAfter]
    | cons x rows ih =>
      simp only [applyOp, rowAfter, List.cons_append] at ih ⊢
      by_cases e : x.Inode = i
      · simp [findRow, e]
      · simp only [findRow, e, if_false]
        exact ih

theorem rowAfter_other (G : String → String × Option Error) (db : FileInfoMap) (lim : Int)
    (k i : Nat) (v : FileInfo) (hv : v.Inode = k) (hne : k ≠ i) (op : StoreOp)
    (hop : opFor G db lim (k, v) = some op) (rows : List FileInfo) :
    rowAfter op i (findRow rows i) = findRow rows i := by
  rcases opFor_cases G db lim (k, v) with h | h | h
  · rw [h] at hop; simp at hop
  · rw [h] at hop
    simp only [Option.some.injEq] at hop
    subst hop
    simp only [rowAfter, stamped_Inode, hv]
    cases hr : findRow rows i with
    | none => rfl
    | some r =>
      have : r.Inode = i := findRow_Inode rows i r hr
      have hne' : ¬ r.Inode = k := by rw [this]; exact fun e => hne e.symm
      simp [hne']
  · rw [h] at hop
    simp only [Option.some.injEq] at hop
    subst hop
    simp only [rowAfter, stamped_Inode, hv]
    cases hr : findRow rows i with
    | none => simp [hne]
    | some r => rfl

theorem findRow_loop (G : String → String × Option Error) (db : FileInfoMap) (lim : Int)
    (i : Nat) (l : FileInfoMap) (hl : DistinctKeys l) (hk : KeyedByInode l)
    (rows : List FileInfo) :
    findRow ((l.filterMap (opFor G db lim)).foldl applyOp rows) i
      = match mapGet l i with
        | none => findRow rows i
        | some c =>
          match opFor G db lim (i, c) with
          | none => findRow rows i
          | some op => rowAfter op i (findRow rows i) := by
  induction l generalizing rows with
  | nil => simp [mapGet]
  | cons p l ih =>
    obtain ⟨k, v⟩ := p
    have hv : v.Inode = k := hk (k, v) (List.mem_cons_self _ _)
    have hkl : KeyedByInode l := fun q hq => hk q (List.mem_cons_of_mem _ hq)
    simp only [DistinctKeys, List.map_cons, List.nodup_cons] at hl
    have ih := ih hl.2 hkl
    rw [List.filterMap_cons]
    by_cases e : k = i
    · subst e
      have hnone : mapGet l k = none := (mapGet_eq_none_iff l k).mpr hl.1
      simp only [mapGet, if_true]
      cases hop : opFor G db lim (k, v) with
      | none =>
        simp only []
        rw [ih rows, hnone]
      | some op =>
        simp only [List.foldl_cons]
        rw [ih (applyOp rows op), hnone]
        exact findRow_applyOp rows op k
    · simp only [mapGet, e, if_false]
      cases hop : opFor G db lim (k, v) with
      | none =>
        simp only []
        exact ih rows
      | some op =>
        simp only [List.foldl_cons]
        rw [ih (applyOp rows op)]
        have : findRow (applyOp rows op) i = findRow rows i := by
          rw [findRow_applyOp]
          exact rowAfter_other G db lim k i v hv e op hop rows
        rw [this]

theorem mem_needDelete_inodes (db curr : FileInfoMap) (hdb : DistinctKeys db)
    (hk : KeyedByInode db) (i : Nat) :
    i ∈ (needDeleteFileInfoList db curr).map FileInfo.Inode
      ↔ mapGet db i ≠ none ∧ mapGet curr i = none := by
  simp only [List.mem_map, mem_needDelete db curr hdb]
  constructor
  · rintro ⟨r, ⟨j, hj, hnone⟩, hi⟩
    have : r.Inode = j := mapGet_Inode db hk j r hj
    rw [hi] at this
    subst this
    exact ⟨by simp [hj], hnone⟩
  · rintro ⟨hne, hnone⟩
    obtain ⟨r, hr⟩ := Option.ne_none_iff_exists'.mp hne
    exact ⟨r, ⟨i, hr, hnone⟩, mapGet_Inode db hk i r hr⟩

/-- The row of each inode after a run without failure, when the prior mapping is
the content of the store. -/
theorem findRow_after_run (G : String → String × Option Error) (fault : Fault)
    (s : FileScanner) (lim : Int)
    (hdb : DistinctKeys s.dbFileInfoMap) (hdbk : KeyedByInode s.dbFileInfoMap)
    (hc : DistinctKeys s.currFileInfoMap) (hck : KeyedByInode s.currFileInfoMap)
    (hstore : ∀ i, findRow s.DB.rows i = mapGet s.dbFileInfoMap i)
    (hok : (UpdateDBWithHashSizeLimit G fault s lim).err = none) (i : Nat) :
    findRow (UpdateDBWithHashSizeLimit G fault s lim).scanner.DB.rows i
      = match mapGet s.currFileInfoMap i with
        | none => none
        | some c =>
          match mapGet s.dbFileInfoMap i with
          | none => some (stamped G lim c)
          | some d =>
            if c.ModTime > d.ModTime then some (updatesRow d (stamped G lim c)) else some d := by
  obtain ⟨hissued, hrows, _⟩ := (run_spec G fault s lim).2.1 hok
  rw [hrows, hissued]
  unfold plannedOps
  rw [List.foldl_append, findRow_loop G s.dbFileInfoMap lim i s.currFileInfoMap hc hck]
  have hdel : findRow
      ((if (needDeleteFileInfoList s.dbFileInfoMap s.currFileInfoMap).length > 0 then
          [StoreOp.Delete (needDeleteFileInfoList s.dbFileInfoMap s.currFileInfoMap)]
        else []).foldl applyOp s.DB.rows) i
      = if mapGet s.currFileInfoMap i = none then none else mapGet s.dbFileInfoMap i := by
    have hmem := mem_needDelete_inodes s.dbFileInfoMap s.currFileInfoMap hdb hdbk i
    by_cases hlen : (needDeleteFileInfoList s.dbFileInfoMap s.currFileInfoMap).length > 0
    · simp only [hlen, if_true, List.foldl_cons, List.foldl_nil]
      rw [findRow_applyOp, hstore]
      simp only [rowAfter]
      by_cases hcn : mapGet s.currFileInfoMap i = none
      · by_cases hdn : mapGet s.dbFileInfoMap i = none
        · simp [hcn, hdn]
        · have : i ∈ (needDeleteFileInfoList s.dbFileInfoMap s.currFileInfoMap).map
              FileInfo.Inode := hmem.mpr ⟨hdn, hcn⟩
          simp only [this, if_true, hcn]
      · have : i ∉ (needDeleteFileInfoList s.dbFileInfoMap s.currFileInfoMap).map
            FileInfo.Inode := fun h => hcn (hmem.mp h).2
        simp only [this, if_false, hcn]
    · have hnil : needDeleteFileInfoList s.dbFileInfoMap s.currFileInfoMap = [] := by
        cases hnd : needDeleteFileInfoList s.dbFileInfoMap s.currFileInfoMap with
        | nil => rfl
        | cons a b => rw [hnd] at hlen; simp at hlen
      simp only [hlen, if_false, List.foldl_nil]
      rw [hstore]
      by_cases hcn : mapGet s.currFileInfoMap i = none
      · simp only [hcn, if_true]
        by_contra hdn
        have := hmem.mpr ⟨hdn, hcn⟩
        rw [hnil] at this
        simp at this
      · simp only [hcn, if_false]
  rw [hdel]
  cases hcur : mapGet s.currFileInfoMap i with
  | none => simp
  | some c =>
    simp only [reduceCtorEq, if_false]
    cases hd : mapGet s.dbFileInfoMap i with
    | none => simp [opFor, hd, rowAfter, stamped_Inode, mapGet_Inode _ hck i c hcur]
    | some d =>
      have hdi : d.Inode = i := mapGet_Inode _ hdbk i d hd
      have hci : c.Inode = i := mapGet_Inode _ hck i c hcur
      by_cases hafter : c.ModTime > d.ModTime
      · simp [opFor, hd, hafter, rowAfter, stamped_Inode, hdi, hci]
      · simp [opFor, hd, hafter]


/-- C6 as amended, idempotence: when the prior mapping of the first run is the content
of the store at its start, as a successful `loadFileInfoFromDB` leaves it, and that
run of `UpdateDBWithHashSizeLimit` succeeds, a second run whose prior mapping is
the store content left by the first and whose current mapping is a snapshot with
the same inodes, names, paths, sizes and modification times issues no store call. -/
theorem idempotence (G G2 : String → String × Option Error) (fault fault2 : Fault)
    (s s2 : FileScanner) (hashSizeLimit hashSizeLimit2 : Int)
    (hdb : DistinctKeys s.dbFileInfoMap) (hdbk : KeyedByInode s.dbFileInfoMap)
    (hc : DistinctKeys s.currFileInfoMap) (hck : KeyedByInode s.currFileInfoMap)
    (hstore : ∀ i, findRow s.DB.rows i = mapGet s.dbFileInfoMap i)
    (hok : (UpdateDBWithHashSizeLimit G fault s hashSizeLimit).err = none)
    (hprior2 : ∀ i, mapGet s2.dbFileInfoMap i
      = findRow (UpdateDBWithHashSizeLimit G fault s hashSizeLimit).scanner.DB.rows i)
    (hc2 : DistinctKeys s2.currFileInfoMap)
    (hsame : ∀ i,
      (mapGet s2.currFileInfoMap i).map (fun r => (r.Name, r.Path, r.Size, r.ModTime))
        = (mapGet s.currFileInfoMap i).map (fun r => (r.Name, r.Path, r.Size, r.ModTime))) :
    issued s2 (UpdateDBWithHashSizeLimit G2 fault2 s2 hashSizeLimit2) = [] := by
  have hrow := findRow_after_run G fault s hashSizeLimit hdb hdbk hc hck hstore hok
  have hplan : plannedOps G2 s2 hashSizeLimit2 = [] := by
    unfold plannedOps
    have hnd : needDeleteFileInfoList s2.dbFileInfoMap s2.currFileInfoMap = [] := by
      unfold needDeleteFileInfoList
      rw [List.map_eq_nil_iff]
      apply List.filter_eq_nil_iff.mpr
      intro p hp hnone
      simp only [Option.isNone_iff_eq_none] at hnone
      have h1 : mapGet s2.dbFileInfoMap p.1 ≠ none := by
        intro h
        exact (mapGet_eq_none_iff _ _).mp h (List.mem_map.mpr ⟨p, hp, rfl⟩)
      have h2 := hsame p.1
      rw [hnone] at h2
      have h3 : mapGet s.currFileInfoMap p.1 = none := by
        cases h : mapGet s.currFileInfoMap p.1 with
        | none => rfl
        | some c => rw [h] at h2; simp at h2
      rw [hprior2, hrow, h3] at h1
      exact h1 rfl
    rw [hnd]
    simp only [List.length_nil, gt_iff_lt, lt_self_iff_false, if_false, List.nil_append]
    apply List.filterMap_eq_nil_iff.mpr
    intro p hp
    obtain ⟨k, c2⟩ := p
    have hget : mapGet s2.currFileInfoMap k = some c2 := mapGet_of_mem _ hc2 k c2 hp
    have h2 := hsame k
    rw [hget] at h2
    cases hcur : mapGet s.currFileInfoMap k with
    | none => rw [hcur] at h2; simp at h2
    | some c =>
      rw [hcur] at h2
      simp only [Option.map_some', Option.some.injEq, Prod.mk.injEq] at h2
      have hmt : c2.ModTime = c.ModTime := h2.2.2.2
      have hr := hrow k
      rw [hcur] at hr
      simp only at hr
      unfold opFor
      simp only
      rw [hprior2, hr]
      cases hd : mapGet s.dbFileInfoMap k with
      | none =>
        simp only [stamped_ModTime, hmt]
        simp
      | some d =>
        simp only
        by_cases hafter : c.ModTime > d.ModTime
        · simp only [hafter, if_true, updatesRow, stamped_ModTime, hmt]
          simp
        · simp only [hafter, if_false, hmt]
  have hpre := (run_spec G2 fault2 s2 hashSizeLimit2).1
  rw [hplan] at hpre
  exact List.prefix_nil.mp hpre

theorem hashedFor_iff (db : FileInfoMap) (lim : Int) (i : Nat) (r : FileInfo) :
    hashedFor db lim (i, r) = true ↔
      r.Size ≤ lim ∧ (mapGet db i = none ∨ ∃ d, mapGet db i = some d ∧ r.ModTime > d.ModTime) := by
  unfold hashedFor
  cases h : mapGet db i with
  | none => simp
  | some d => simp [and_comm]

/-- C5 as amended, hasher invocation: in every run of `UpdateDBWithHashSizeLimit`
the hasher is invoked only for records of the current mapping that are new or
changed and whose size is at most the limit, so a record one byte above the limit
and an unchanged matched record are never hashed; and in a run in which no store
call fails it is invoked for every such record, in particular for one whose size
equals the limit. -/
theorem hasher_invocation (G : String → String × Option Error) (fault : Fault)
    (s : FileScanner) (hashSizeLimit : Int)
    (hc : DistinctKeys s.currFileInfoMap) (hck : KeyedByInode s.currFileInfoMap) :
    (∀ r, r ∈ (UpdateDBWithHashSizeLimit G fault s hashSizeLimit).hashed →
      mapGet s.currFileInfoMap r.Inode = some r ∧ r.Size ≤ hashSizeLimit ∧
      (mapGet s.dbFileInfoMap r.Inode = none ∨
        ∃ d, mapGet s.dbFileInfoMap r.Inode = some d ∧ r.ModTime > d.ModTime)) ∧
    ((UpdateDBWithHashSizeLimit G fault s hashSizeLimit).err = none →
      ∀ i r, mapGet s.currFileInfoMap i = some r → r.Size ≤ hashSizeLimit →
        (mapGet s.dbFileInfoMap i = none ∨
          ∃ d, mapGet s.dbFileInfoMap i = some d ∧ r.ModTime > d.ModTime) →
        r ∈ (UpdateDBWithHashSizeLimit G fault s hashSizeLimit).hashed) ∧
    (∀ i r, mapGet s.currFileInfoMap i = some r → r.Size = hashSizeLimit + 1 →
      r ∉ (UpdateDBWithHashSizeLimit G fault s hashSizeLimit).hashed) ∧
    (∀ i r d, mapGet s.currFileInfoMap i = some r → mapGet s.dbFileInfoMap i = some d →
      ¬ r.ModTime > d.ModTime →
      r ∉ (UpdateDBWithHashSizeLimit G fault s hashSizeLimit).hashed) := by
  obtain ⟨hpre, hfull⟩ := run_hashed G fault s hashSizeLimit
  have honly : ∀ r, r ∈ (UpdateDBWithHashSizeLimit G fault s hashSizeLimit).hashed →
      mapGet s.currFileInfoMap r.Inode = some r ∧ r.Size ≤ hashSizeLimit ∧
      (mapGet s.dbFileInfoMap r.Inode = none ∨
        ∃ d, mapGet s.dbFileInfoMap r.Inode = some d ∧ r.ModTime > d.ModTime) := by
    intro r hr
    have hr' := hpre.subset hr
    simp only [List.mem_map, List.mem_filter] at hr'
    obtain ⟨⟨k, v⟩, ⟨hmem, hh⟩, rfl⟩ := hr'
    have hkv : v.Inode = k := hck (k, v) hmem
    simp only at hkv ⊢
    rw [hkv]
    have := (hashedFor_iff _ _ _ _).mp hh
    exact ⟨mapGet_of_mem _ hc k v hmem, this.1, this.2⟩
  refine ⟨honly, ?_, ?_, ?_⟩
  · intro hok i r hget hsz hcond
    rw [hfull hok]
    simp only [List.mem_map, List.mem_filter]
    exact ⟨(i, r), ⟨mem_of_mapGet _ i r hget, (hashedFor_iff _ _ _ _).mpr ⟨hsz, hcond⟩⟩, rfl⟩
  · intro i r _ hsz hr
    have := (honly r hr).2.1
    omega
  · intro i r d hget hd hnot hr
    have hri : r.Inode = i := mapGet_Inode _ hck i r hget
    have := (honly r hr).2.2
    rw [hri, hd] at this
    rcases this with h | ⟨d', h1, h2⟩
    · simp at h
    · simp only [Option.some.injEq] at h1
      subst h1
      exact hnot h2


/-! ## Building the two mappings -/

theorem mem_mapSet (m : FileInfoMap) (k : Nat) (v : FileInfo) (p : Nat × FileInfo)
    (h : p ∈ mapSet m k v) : p = (k, v) ∨ p ∈ m := by
  induction m with
  | nil => simp [mapSet] at h; exact Or.inl h
  | cons hd tl ih =>
    obtain ⟨a, b⟩ := hd
    by_cases e : a = k
    · simp only [mapSet, e, if_true, List.mem_cons] at h
      rcases h with h | h
      · exact Or.inl h
      · exact Or.inr (List.mem_cons_of_mem _ h)
    · simp only [mapSet, e, if_false, List.mem_cons] at h
      rcases h with h | h
      · exact Or.inr (h ▸ List.mem_cons_self _ _)
      · rcases ih h with h | h
        · exact Or.inl h
        · exact Or.inr (List.mem_cons_of_mem _ h)

theorem keys_mapSet (m : FileInfoMap) (k : Nat) (v : FileInfo) :
    (mapSet m k v).map Prod.fst
      = if k ∈ m.map Prod.fst then m.map Prod.fst else m.map Prod.fst ++ [k] := by
  induction m with
  | nil => simp [mapSet]
  | cons hd tl ih =>
    obtain ⟨a, b⟩ := hd
    by_cases e : a = k
    · subst e; simp [mapSet]
    · have e' : ¬ k = a := fun h => e h.symm
      simp only [mapSet, e, if_false, List.map_cons, ih, List.mem_cons, e', false_or]
      split <;> simp

theorem distinctKeys_mapSet (m : FileInfoMap) (k : Nat) (v : FileInfo)
    (h : DistinctKeys m) : DistinctKeys (mapSet m k v) := by
  unfold DistinctKeys at h ⊢
  rw [keys_mapSet]
  split
  · exact h
  · rename_i hk
    exact List.Nodup.append h (List.nodup_singleton k) (by
      intro x hx hx'
      simp only [List.mem_singleton] at hx'
      exact hk (hx' ▸ hx))

theorem keyedByInode_mapSet (m : FileInfoMap) (v : FileInfo)
    (h : KeyedByInode m) : KeyedByInode (mapSet m v.Inode v) := by
  intro p hp
  rcases mem_mapSet m v.Inode v p hp with e | e
  · rw [e]
  · exact h p e

/-- What `loadFileInfoFromDB` leaves in the prior mapping when the query succeeds on
a table whose primary keys are distinct: a map with distinct keys, each record
under its own inode, that holds exactly the rows of the table. -/
theorem loadFileInfoFromDB_spec (env : Startup) (s : FileScanner)
    (hfind : env.findError = none) (hempty : s.dbFileInfoMap = [])
    (hrows : (s.DB.rows.map FileInfo.Inode).Nodup) :
    (loadFileInfoFromDB env s).2 = none ∧
    DistinctKeys (loadFileInfoFromDB env s).1.dbFileInfoMap ∧
    KeyedByInode (loadFileInfoFromDB env s).1.dbFileInfoMap ∧
    ∀ i, mapGet (loadFileInfoFromDB env s).1.dbFileInfoMap i = findRow s.DB.rows i := by
  have key : ∀ (rows : List FileInfo) (m : FileInfoMap),
      (rows.map FileInfo.Inode).Nodup → DistinctKeys m → KeyedByInode m →
      DistinctKeys (rows.foldl (fun m fileInfo => mapSet m fileInfo.Inode fileInfo) m) ∧
      KeyedByInode (rows.foldl (fun m fileInfo => mapSet m fileInfo.Inode fileInfo) m) ∧
      ∀ i, mapGet (rows.foldl (fun m fileInfo => mapSet m fileInfo.Inode fileInfo) m) i
        = match findRow rows i with
          | some r => some r
          | none => mapGet m i := by
    intro rows
    induction rows with
    | nil => intro m _ h1 h2; exact ⟨h1, h2, fun i => by simp [findRow]⟩
    | cons r rows ih =>
      intro m hnd h1 h2
      simp only [List.map_cons, List.nodup_cons] at hnd
      obtain ⟨a, b, c⟩ := ih (mapSet m r.Inode r) hnd.2
        (distinctKeys_mapSet m r.Inode r h1) (keyedByInode_mapSet m r h2)
      refine ⟨a, b, ?_⟩
      intro i
      simp only [List.foldl_cons]
      rw [c i, mapGet_mapSet]
      by_cases e : r.Inode = i
      · have : findRow rows i = none := by
          cases hf : findRow rows i with
          | none => rfl
          | some x =>
            exfalso
            have hx : x.Inode = i := findRow_Inode rows i x hf
            have hmem : x ∈ rows := by
              clear ih a b c hnd
              induction rows with
              | nil => simp [findRow] at hf
              | cons y rows ih2 =>
                by_cases ey : y.Inode = i
                · simp [findRow, ey] at hf; simp [hf]
                · simp [findRow, ey] at hf; exact List.mem_cons_of_mem _ (ih2 hf)
            exact hnd.1 (List.mem_map.mpr ⟨x, hmem, by rw [hx, e]⟩)
        simp [findRow, e, this]
      · simp [findRow, e]
  unfold loadFileInfoFromDB
  rw [hfind]
  simp only
  rw [hempty]
  obtain ⟨a, b, c⟩ := key s.DB.rows [] hrows (by simp [DistinctKeys])
    (by intro p hp; simp at hp)
  refine ⟨trivial, a, b, ?_⟩
  intro i
  rw [c i]
  cases findRow s.DB.rows i <;> simp [mapGet]

theorem walkDir_observed (Stat : String → Except Error Stat_t) (s : FileScanner)
    (path : String) (entry : DirEntry) (err : Option Error)
    (h : Observed s.currFileInfoMap) :
    Observed (walkDir Stat s path entry err).1.currFileInfoMap := by
  unfold walkDir
  cases err with
  | some e => exact h
  | none =>
    simp only
    by_cases hr : entry.IsRegular = true
    · simp only [hr, if_true]
      cases hs : Stat path with
      | error e => exact h
      | ok stat =>
        simp only
        refine ⟨distinctKeys_mapSet _ _ _ h.1, ?_, ?_⟩
        · intro p hp
          rcases mem_mapSet _ _ _ p hp with e | e
          · rw [e]
          · exact h.2.1 p e
        · intro p hp
          rcases mem_mapSet _ _ _ p hp with e | e
          · rw [e]
          · exact h.2.2 p e
    · simp only [hr]
      exact h

theorem walkVisits_observed (Stat : String → Except Error Stat_t) (visits : List Visit)
    (s : FileScanner) (h : Observed s.currFileInfoMap) :
    Observed (walkVisits Stat s visits).1.currFileInfoMap := by
  induction visits generalizing s with
  | nil => exact h
  | cons v rest ih =>
    have h1 := walkDir_observed Stat s v.path v.entry v.err h
    unfold walkVisits
    cases hw : walkDir Stat s v.path v.entry v.err with
    | mk s' e =>
      rw [hw] at h1
      cases e with
      | some e => exact h1
      | none => exact ih s' h1

theorem lastRegular_append (Stat : String → Except Error Stat_t) (i : Nat)
    (a b : List Visit) :
    lastRegular Stat i (a ++ b)
      = match lastRegular Stat i a with
        | some r => some r
        | none => lastRegular Stat i b := by
  induction a with
  | nil => simp [lastRegular]
  | cons v a ih =>
    simp only [List.cons_append, lastRegular]
    cases Stat v.path with
    | error e => exact ih
    | ok stat =>
      simp only
      split
      · rfl
      · exact ih

theorem lastRegular_ne_none_iff (Stat : String → Except Error Stat_t) (i : Nat)
    (l : List Visit) :
    lastRegular Stat i l ≠ none ↔
      ∃ v ∈ l, v.entry.IsRegular = true ∧ ∃ stat, Stat v.path = .ok stat ∧ stat.Ino = i := by
  induction l with
  | nil => simp [lastRegular]
  | cons v l ih =>
    simp only [lastRegular, List.mem_cons, exists_eq_or_imp]
    cases hs : Stat v.path with
    | error e =>
      simp only [reduceCtorEq, false_and, exists_false, and_false, false_or]
      exact ih
    | ok stat =>
      simp only [Except.ok.injEq, exists_eq_left']
      by_cases hc : v.entry.IsRegular = true ∧ stat.Ino = i
      · simp [hc]
      · simp only [hc, if_false, false_or]
        exact ih

theorem walkVisits_spec (Stat : String → Except Error Stat_t) (visits : List Visit)
    (s : FileScanner)
    (hno : ∀ v ∈ visits, v.err = none ∧
      (v.entry.IsRegular = true → ∃ stat, Stat v.path = .ok stat)) :
    (walkVisits Stat s visits).2 = none ∧
    ∀ i, mapGet (walkVisits Stat s visits).1.currFileInfoMap i
      = match lastRegular Stat i visits.reverse with
        | some r => some r
        | none => mapGet s.currFileInfoMap i := by
  induction visits generalizing s with
  | nil => exact ⟨rfl, fun i => by simp [walkVisits, lastRegular]⟩
  | cons v rest ih =>
    obtain ⟨herr, hstat⟩ := hno v (List.mem_cons_self _ _)
    have hrest : ∀ w ∈ rest, w.err = none ∧
        (w.entry.IsRegular = true → ∃ stat, Stat w.path = .ok stat) :=
      fun w hw => hno w (List.mem_cons_of_mem _ hw)
    by_cases hr : v.entry.IsRegular = true
    · obtain ⟨stat, hs⟩ := hstat hr
      obtain ⟨s1, hs1⟩ : ∃ s1 : FileScanner, s1 = (walkDir Stat s v.path v.entry v.err).1 :=
        ⟨_, rfl⟩
      have hw : walkDir Stat s v.path v.entry v.err = (s1, none) := by
        subst hs1; simp [walkDir, herr, hr, hs]
      have hcur : s1.currFileInfoMap = mapSet s.currFileInfoMap stat.Ino
          (FileInfo.mk stat.Ino v.entry.Name v.path stat.Size (timeUnix stat.Mtim) "") := by
        subst hs1; simp [walkDir, herr, hr, hs]
      obtain ⟨h1, h2⟩ := ih s1 hrest
      have hwv : walkVisits Stat s (v :: rest) = walkVisits Stat s1 rest := by
        simp [walkVisits, hw]
      rw [hwv]
      refine ⟨h1, ?_⟩
      intro i
      rw [h2 i, List.reverse_cons, lastRegular_append, hcur]
      cases lastRegular Stat i rest.reverse with
      | some r => rfl
      | none =>
        simp only [lastRegular, hs, hr, true_and, mapGet_mapSet]
        by_cases e : stat.Ino = i <;> simp [e]
    · have hw : walkDir Stat s v.path v.entry v.err = (s, none) := by
        simp [walkDir, herr, hr]
      obtain ⟨h1, h2⟩ := ih s hrest
      have hwv : walkVisits Stat s (v :: rest) = walkVisits Stat s rest := by
        simp [walkVisits, hw]
      rw [hwv]
      refine ⟨h1, ?_⟩
      intro i
      rw [h2 i, List.reverse_cons, lastRegular_append]
      cases lastRegular Stat i rest.reverse with
      | some r => rfl
      | none =>
        simp only [lastRegular]
        cases Stat v.path with
        | error e => rfl
        | ok stat => simp [hr]

/-- C10, snapshot construction: `walkDir` returns an incoming traversal error or a
stat error unchanged and leaves the scanner as it was; a non-regular entry changes
nothing and gives no error; and over a walk from the empty current mapping in
which no traversal or stat error occurs, `walkVisits` returns nil, the keys of the
current mapping are distinct and are exactly the inodes of the regular entries
visited, and the record at each inode is the one built from the last visited
regular entry with that inode, with an empty hash. -/
theorem snapshot_construction (Stat : String → Except Error Stat_t) :
    (∀ s path entry e, walkDir Stat s path entry (some e) = (s, some e)) ∧
    (∀ s path entry e, entry.IsRegular = true → Stat path = .error e →
      walkDir Stat s path entry none = (s, some e)) ∧
    (∀ s path entry, entry.IsRegular = false → walkDir Stat s path entry none = (s, none)) ∧
    (∀ s visits, s.currFileInfoMap = [] →
      (∀ v ∈ visits, v.err = none ∧
        (v.entry.IsRegular = true → ∃ stat, Stat v.path = .ok stat)) →
      (walkVisits Stat s visits).2 = none ∧
      DistinctKeys (walkVisits Stat s visits).1.currFileInfoMap ∧
      (∀ i, mapGet (walkVisits Stat s visits).1.currFileInfoMap i ≠ none ↔
        ∃ v ∈ visits, v.entry.IsRegular = true ∧
          ∃ stat, Stat v.path = .ok stat ∧ stat.Ino = i) ∧
      (∀ i, mapGet (walkVisits Stat s visits).1.currFileInfoMap i
        = lastRegular Stat i visits.reverse)) := by
  refine ⟨?_, ?_, ?_, ?_⟩
  · intro s path entry e; rfl
  · intro s path entry e hr hs; simp [walkDir, hr, hs]
  · intro s path entry hr; simp [walkDir, hr]
  · intro s visits hempty hno
    obtain ⟨h1, h2⟩ := walkVisits_spec Stat visits s hno
    have hval : ∀ i, mapGet (walkVisits Stat s visits).1.currFileInfoMap i
        = lastRegular Stat i visits.reverse := by
      intro i
      rw [h2 i, hempty]
      cases lastRegular Stat i visits.reverse <;> simp [mapGet]
    have hobs : Observed s.currFileInfoMap := by
      rw [hempty]
      exact ⟨by simp [DistinctKeys], by intro p hp; simp at hp, by intro p hp; simp at hp⟩
    refine ⟨h1, (walkVisits_observed Stat visits s hobs).1, ?_, hval⟩
    intro i
    rw [hval i, lastRegular_ne_none_iff]
    simp only [List.mem_reverse]


/-! ## The properties on concrete runs -/

theorem exHasher_contract : HasherContract exHasher := by
  intro path
  unfold exHasher
  split <;> simp

theorem exScanner_store (i : Nat) :
    findRow exScanner.DB.rows i = mapGet exScanner.dbFileInfoMap i := by
  simp [exScanner, findRow, mapGet, exPrior1, exPrior2, exPrior5]

/-- Deletion completeness on the concrete run: inode 5 is in the prior mapping only,
and the one delete batch is its record. -/
theorem deletion_completeness_witness :
    DistinctKeys exScanner.dbFileInfoMap ∧ KeyedByInode exScanner.dbFileInfoMap ∧
    KeyedByInode exScanner.currFileInfoMap ∧
    (UpdateDBWithHashSizeLimit exHasher noFault exScanner exLimit).err = none ∧
    ∃ batch,
      deleteBatches (issued exScanner
        (UpdateDBWithHashSizeLimit exHasher noFault exScanner exLimit)) = [batch] ∧
      batch.Nodup ∧
      ∀ r, r ∈ batch ↔
        ∃ i, mapGet exScanner.dbFileInfoMap i = some r ∧
          mapGet exScanner.currFileInfoMap i = none :=
  ⟨by decide, by decide, by decide, by decide,
    (deletion_completeness exHasher noFault exScanner exLimit
      (by decide) (by decide) (by decide) (by decide)).1 ⟨5, by decide, by decide⟩⟩

/-- Update gating on the concrete run: inode 1 has a later modification time and gets
exactly one update. -/
theorem update_gating_witness :
    KeyedByInode exScanner.dbFileInfoMap ∧ DistinctKeys exScanner.currFileInfoMap ∧
    KeyedByInode exScanner.currFileInfoMap ∧
    mapGet exScanner.dbFileInfoMap 1 = some exPrior1 ∧
    mapGet exScanner.currFileInfoMap 1 = some exCur1 ∧
    (UpdateDBWithHashSizeLimit exHasher noFault exScanner exLimit).err = none ∧
    exCur1.ModTime > exPrior1.ModTime ∧
    (updatesOf (issued exScanner
        (UpdateDBWithHashSizeLimit exHasher noFault exScanner exLimit))).filter
      (fun r => decide (r.Inode = 1)) = [stamped exHasher exLimit exCur1] :=
  ⟨by decide, by decide, by decide, by decide, by decide, by decide, by decide,
    (update_gating exHasher noFault exScanner exLimit 1 exPrior1 exCur1
      (by decide) (by decide) (by decide) (by decide) (by decide) (by decide)).1 (by decide)⟩

/-- Insertion correctness on the concrete run: inode 9 is new and 20 MiB, and no update
is issued for it. -/
theorem insertion_correctness_witness :
    HasherContract exHasher ∧
    KeyedByInode exScanner.dbFileInfoMap ∧ DistinctKeys exScanner.currFileInfoMap ∧
    KeyedByInode exScanner.currFileInfoMap ∧
    mapGet exScanner.dbFileInfoMap 9 = none ∧
    mapGet exScanner.currFileInfoMap 9 = some exCur9 ∧
    exCur9.Hash = "" ∧
    (UpdateDBWithHashSizeLimit exHasher noFault exScanner exLimit).err = none ∧
    ∃ r,
      (createsOf (issued exScanner
          (UpdateDBWithHashSizeLimit exHasher noFault exScanner exLimit))).filter
        (fun r => decide (r.Inode = 9)) = [r] ∧
      r.Inode = 9 ∧ r.Name = exCur9.Name ∧ r.Path = exCur9.Path ∧
      r.Size = exCur9.Size ∧ r.ModTime = exCur9.ModTime ∧
      (r.Hash ≠ "" ↔ (exCur9.Size ≤ exLimit ∧ (exHasher exCur9.Path).2 = none)) ∧
      (exCur9.Size ≤ exLimit → (exHasher exCur9.Path).2 = none →
        r.Hash = (exHasher exCur9.Path).1) :=
  ⟨exHasher_contract, by decide, by decide, by decide, by decide, by decide, by decide,
    by decide,
    (insertion_correctness exHasher noFault exScanner exLimit 9 exCur9 exHasher_contract
      (by decide) (by decide) (by decide) (by decide) (by decide) (by decide) (by decide)).1⟩

/-- Hasher invocation on the concrete run: the renamed inode 2, whose modification
time did not advance, is not hashed. -/
theorem hasher_invocation_witness :
    DistinctKeys exScanner.currFileInfoMap ∧ KeyedByInode exScanner.currFileInfoMap ∧
    exCur2 ∉ (UpdateDBWithHashSizeLimit exHasher noFault exScanner exLimit).hashed :=
  ⟨by decide, by decide,
    (hasher_invocation exHasher noFault exScanner exLimit (by decide) (by decide)).2.2.2
      2 exCur2 exPrior2 (by decide) (by decide) (by decide)⟩

/-- C5 as stated fails: in a run whose first create fails, inode 7 is in the current
mapping, is new and has exactly the limit size, and the hasher is not invoked for it. -/
theorem hasher_invocation_counterexample :
    ¬ (exCur7 ∈ (UpdateDBWithHashSizeLimit exHasher failCreate exFresh exLimit).hashed ↔
        (mapGet exFresh.currFileInfoMap 7 = some exCur7 ∧
          mapGet exFresh.dbFileInfoMap 7 = none ∧ exCur7.Size ≤ exLimit)) := by
  decide

/-- Idempotence on the concrete run: the second run, from the store the first run
left and the same snapshot, issues no store call. -/
theorem idempotence_witness :
    DistinctKeys exScanner.dbFileInfoMap ∧ KeyedByInode exScanner.dbFileInfoMap ∧
    DistinctKeys exScanner.currFileInfoMap ∧ KeyedByInode exScanner.currFileInfoMap ∧
    (UpdateDBWithHashSizeLimit exHasher noFault exScanner exLimit).err = none ∧
    DistinctKeys exScanner2.currFileInfoMap ∧
    issued exScanner2 (UpdateDBWithHashSizeLimit exHasher failCreate exScanner2 exLimit) = [] :=
  ⟨by decide, by decide, by decide, by decide, by decide, by decide,
    idempotence exHasher exHasher noFault failCreate exScanner exScanner2 exLimit exLimit
      (by decide) (by decide) (by decide) (by decide) exScanner_store (by decide)
      (loadFileInfoFromDB_spec exStartup
        { Root := "."
          DB := (UpdateDBWithHashSizeLimit exHasher noFault exScanner exLimit).scanner.DB
          dbFileInfoMap := []
          currFileInfoMap := [] } rfl rfl (by decide)).2.2.2
      (by decide) (fun _ => rfl)⟩

/-- C6 as stated fails for a prior mapping that is not the store content: the store
holds inode 5, the prior mapping is empty and inode 7 is new; the first run succeeds
and leaves both rows, and the second run, from that store and the same snapshot,
issues a delete for inode 5. -/
theorem idempotence_counterexample :
    (UpdateDBWithHashSizeLimit exHasher noFault exStale exLimit).err = none ∧
    (UpdateDBWithHashSizeLimit exHasher noFault exStale exLimit).scanner.DB.rows
      = [exPrior5, { exCur7 with Hash := "d41d8cd9" }] ∧
    exStale2.dbFileInfoMap = [(5, exPrior5), (7, { exCur7 with Hash := "d41d8cd9" })] ∧
    exStale2.currFileInfoMap = exStale.currFileInfoMap ∧
    issued exStale2 (UpdateDBWithHashSizeLimit exHasher noFault exStale2 exLimit)
      = [.Delete [exPrior5]] := by
  decide

/-- C4 on the code: inode 1 changed and is now above the limit, the run succeeds, and
the row of inode 1 keeps the hash stored for the old content; inode 1 truncated to
zero bytes keeps the old size; and when the hasher fails the old hash is kept too. -/
theorem update_keeps_stale_hash_and_size :
    (UpdateDBWithHashSizeLimit exHasher noFault (exChanged exCur1Big) exLimit).err = none ∧
    findRow (UpdateDBWithHashSizeLimit exHasher noFault (exChanged exCur1Big)
        exLimit).scanner.DB.rows 1
      = some { exCur1Big with Hash := "abc" } ∧
    (UpdateDBWithHashSizeLimit exHasher noFault (exChanged exCur1Empty) exLimit).err = none ∧
    findRow (UpdateDBWithHashSizeLimit exHasher noFault (exChanged exCur1Empty)
        exLimit).scanner.DB.rows 1
      = some { exCur1Empty with Size := 100, Hash := "d41d8cd9" } ∧
    findRow (UpdateDBWithHashSizeLimit exHasher noFault
        (exChanged { exCur1 with Path := "/t/locked" }) exLimit).scanner.DB.rows 1
      = some { exCur1 with Path := "/t/locked", Hash := "abc" } := by
  decide

/-- C8 on the code: the database opens, then dropping the table, migrating and the
initial query all fail, and `NewFileScanner` returns a scanner with an empty prior
mapping and a nil error although the table holds a row. -/
theorem newFileScanner_hides_startup_failures :
    NewFileScanner exStartupFailing [exPrior1] "." "filelist.db" true false
      = (some { Root := ".", DB := { rows := [exPrior1], calls := [] },
                dbFileInfoMap := [], currFileInfoMap := [] }, none) := by
  decide

/-- C9 on the code: with the positional argument `/srv/data` the local `root` of `main`
is `/srv/data` and the scanner is built with root `.`. -/
theorem main_scans_current_directory :
    mainRoot ["/srv/data"] = "/srv/data" ∧
    (mainScanner exStartup [] ["/srv/data"] "filelist.db" false false).1.map FileScanner.Root
      = some "." := by
  decide

/-- Snapshot construction on a concrete walk: a directory and a symlink add nothing,
and two paths of inode 1 leave the single record of the path visited last. -/
theorem walk_with_hard_link :
    (walkVisits exStat exNew exVisits).2 = none ∧
    (walkVisits exStat exNew exVisits).1.currFileInfoMap
      = [(1, { Inode := 1, Name := "hard", Path := "/t/hard", Size := 150,
               ModTime := 2000, Hash := "" })] := by
  decide

/-- Transactional atomicity on a concrete run: the only call issued is the create that
fails, its error is returned and the store is left empty. -/
theorem failed_create_rolls_back :
    (UpdateDBWithHashSizeLimit exHasher failCreate exFresh exLimit).err = some "disk full" ∧
    issued exFresh (UpdateDBWithHashSizeLimit exHasher failCreate exFresh exLimit)
      = [.Create { exCur1 with Hash := "d41d8cd9" }] ∧
    (UpdateDBWithHashSizeLimit exHasher failCreate exFresh exLimit).scanner.DB.rows = [] := by
  decide


end FileScan
